import Mathlib

/-!
Verification of the HTML code-checker analysis core (`src/app.py`).

The development embeds, as executable Lean definitions:

* `calculate_similarity` — which delegates to Python's
  `difflib.SequenceMatcher(None, a.strip(), b.strip()).ratio()`; the whole
  `SequenceMatcher` pipeline (`b2j` occurrence map with the default
  `autojunk` heuristic, the greedy longest-match scan with its extension
  phases, the recursive block decomposition, adjacent-block merging and the
  final `2*M/T` ratio) is reproduced here over `List Char`, with scores in `ℚ`;
* `analyze_code_structure` — BeautifulSoup(`html.parser`) is modelled by a
  start-tag scanner producing the flat list of elements with their `class`
  attributes, which is what `find`/`find_all('div', class_=f)` consult;
* `check_ai_indicators` — the ten weighted text heuristics;
* the `structure_score` aggregation done by the presentation layer.

Some loops recurse on a measure rather than on their argument; those are
expressed with an explicit structural fuel parameter so that the kernel can
evaluate them on concrete inputs.  Every wrapper instantiates the fuel with
a bound that dominates the loop's measure, so the fuel never runs out.
-/

/-! ## Definitions -/

/-! ### Basic character/string utilities mirroring Python semantics -/

/-- Whitespace as recognised by Python's `str.strip`, `str.split` and the
regex class `\s` for `str` patterns (ASCII part plus the common Unicode
whitespace code points). -/
def isPySpace (c : Char) : Bool :=
  c = ' ' || c = '\t' || c = '\n' || c = '\r' || c = '\x0b' || c = '\x0c' ||
  c = '\x1c' || c = '\x1d' || c = '\x1e' || c = '\x1f' ||
  c = '\x85' || c = '\xa0' ||
  c.val = 0x1680 || (0x2000 ≤ c.val && c.val ≤ 0x200a) ||
  c.val = 0x2028 || c.val = 0x2029 || c.val = 0x202f || c.val = 0x205f ||
  c.val = 0x3000

/-- Python `text.strip()`: remove leading and trailing whitespace. -/
def pyStrip (s : String) : String :=
  ⟨((s.data.dropWhile isPySpace).reverse.dropWhile isPySpace).reverse⟩

/-- `pre p l` holds iff `p` is a prefix of `l` (Python `startswith`,
also the building block for substring search). -/
def pre : List Char → List Char → Bool
  | [], _ => true
  | _ :: _, [] => false
  | a :: as, b :: bs => a = b && pre as bs

/-- Python's substring containment `needle in haystack`. -/
def hasSub (needle : List Char) : List Char → Bool
  | [] => pre needle []
  | c :: t => pre needle (c :: t) || hasSub needle t

/-- Loop of `countSub`; the fuel is instantiated with the haystack length,
which dominates the recursion (each step consumes at least one character
when the needle is nonempty). -/
def countSubF (needle : List Char) : ℕ → List Char → ℕ
  | 0, _ => 0
  | _ + 1, [] => 0
  | f + 1, c :: t =>
    if pre needle (c :: t) then
      countSubF needle f ((c :: t).drop needle.length) + 1
    else countSubF needle f t

/-- Python `haystack.count(needle)`: number of non-overlapping occurrences,
scanning left to right (the `needle = []` case mirrors Python's
`len + 1` answer for the empty pattern). -/
def countSub (needle h : List Char) : ℕ :=
  if needle = [] then h.length + 1 else countSubF needle h.length h

/-! ### difflib.SequenceMatcher, specialised to `isjunk = None` -/

/-- Element default used by `charAt`; the algorithm only reads positions
that are in range, so the default never influences results reachable from
`calculate_similarity`. -/
def charAt (l : List Char) (i : ℕ) : Char := l.getD i ⟨0, by decide⟩

/-- Ascending list of occurrence indices of `c` in `b`
(`b2j` entry before the autojunk pass). -/
def occ (b : List Char) (c : Char) : List ℕ :=
  (List.range b.length).filter (fun j => b.get? j == some c)

/-- `autojunk` popularity test from `SequenceMatcher.__chain_b`: for
`len(b) >= 200`, elements occurring more than `len(b) // 100 + 1` times are
dropped from `b2j`. -/
def isPopular (b : List Char) (c : Char) : Bool :=
  200 ≤ b.length && b.length / 100 + 1 < (occ b c).length

/-- `b2j.get(c, [])` after the autojunk pass. -/
def b2jGet (b : List Char) (c : Char) : List ℕ :=
  if isPopular b c then [] else occ b c

/-- `self.bjunk.__contains__`: with `isjunk = None` the junk set stays
empty, so membership is constantly false. -/
def isbjunk (_c : Char) : Bool := false

/-- Lookup in the `j2len` dictionary (association list) with default 0. -/
def alGet (l : List (ℕ × ℕ)) (k : ℕ) : ℕ :=
  ((l.find? (fun p => p.1 == k)).map Prod.snd).getD 0

/-- Chain length `k = j2len.get(j-1, 0) + 1` computed from the previous
row; in Python the `j = 0` case asks the dictionary for key `-1`, which is
never present, hence the explicit guard. -/
def rowK (prev : List (ℕ × ℕ)) (j : ℕ) : ℕ :=
  (if j = 0 then 0 else alGet prev (j - 1)) + 1

/-- Body of the inner `for j in b2j.get(a[i], [])` loop: extend `newj2len`
and update the running best block when `k > bestsize`. -/
def rowStepF (prev : List (ℕ × ℕ)) (i : ℕ)
    (st : List (ℕ × ℕ) × (ℕ × ℕ × ℕ)) (j : ℕ) :
    List (ℕ × ℕ) × (ℕ × ℕ × ℕ) :=
  (st.1 ++ [(j, rowK prev j)],
    if st.2.2.2 < rowK prev j then
      (i + 1 - rowK prev j, j + 1 - rowK prev j, rowK prev j)
    else st.2)

/-- One row `i` of the `find_longest_match` dynamic scan: fold over the
occurrence indices `js` of `a[i]` in `b`, building the new `j2len` row and
updating the running best block. -/
def rowStep (prev : List (ℕ × ℕ)) (best : ℕ × ℕ × ℕ) (i : ℕ) (js : List ℕ) :
    List (ℕ × ℕ) × (ℕ × ℕ × ℕ) :=
  js.foldl (rowStepF prev i) ([], best)

/-- Occurrence indices consulted in row `i`: `b2j.get(a[i], [])` restricted
to `blo <= j < bhi` (the `continue`/`break` filters; `b2j` lists are
ascending, so the `break` is equivalent to the filter). -/
def rowJs (a b : List Char) (blo bhi i : ℕ) : List ℕ :=
  (match a.get? i with
    | some c => b2jGet b c
    | none => []).filter (fun j => decide (blo ≤ j) && decide (j < bhi))

/-- The dictionary-driven scan of `find_longest_match`: rows
`i = alo, …, ahi-1`, initial best `(alo, blo, 0)`. -/
def flmScan (a b : List Char) (alo ahi blo bhi : ℕ) : ℕ × ℕ × ℕ :=
  ((List.range' alo (ahi - alo)).foldl
      (fun st i => rowStep st.1 st.2 i (rowJs a b blo bhi i))
      ([], (alo, blo, 0))).2

/-- First extension loop of `find_longest_match`: grow the best block
leftwards over matching non-junk elements, while `besti > alo` and
`bestj > blo`.  Structural recursion on `besti`, which the loop
decrements. -/
def extendLeft (a b : List Char) (alo blo : ℕ) : ℕ → ℕ → ℕ → ℕ × ℕ × ℕ
  | 0, bj, bs => (0, bj, bs)
  | bi + 1, bj, bs =>
    if alo < bi + 1 ∧ blo < bj ∧ isbjunk (charAt b (bj - 1)) = false ∧
        charAt a (bi + 1 - 1) = charAt b (bj - 1) then
      extendLeft a b alo blo bi (bj - 1) (bs + 1)
    else (bi + 1, bj, bs)

/-- Second extension loop: grow the best block rightwards over matching
non-junk elements while `besti + bestsize < ahi` and
`bestj + bestsize < bhi`.  The loop runs at most `ahi` times, which is the
fuel every caller supplies. -/
def extendRight (a b : List Char) (ahi bhi : ℕ) : ℕ → ℕ → ℕ → ℕ → ℕ × ℕ × ℕ
  | 0, bi, bj, bs => (bi, bj, bs)
  | f + 1, bi, bj, bs =>
    if bi + bs < ahi ∧ bj + bs < bhi ∧ isbjunk (charAt b (bj + bs)) = false ∧
        charAt a (bi + bs) = charAt b (bj + bs) then
      extendRight a b ahi bhi f bi bj (bs + 1)
    else (bi, bj, bs)

/-- Third loop: grow leftwards over matching junk elements.  With
`isjunk = None` the junk set is empty, so this never fires. -/
def junkExtendLeft (a b : List Char) (alo blo : ℕ) : ℕ → ℕ → ℕ → ℕ × ℕ × ℕ
  | 0, bj, bs => (0, bj, bs)
  | bi + 1, bj, bs =>
    if alo < bi + 1 ∧ blo < bj ∧ isbjunk (charAt b (bj - 1)) = true ∧
        charAt a (bi + 1 - 1) = charAt b (bj - 1) then
      junkExtendLeft a b alo blo bi (bj - 1) (bs + 1)
    else (bi + 1, bj, bs)

/-- Fourth loop: grow rightwards over matching junk elements (never fires). -/
def junkExtendRight (a b : List Char) (ahi bhi : ℕ) : ℕ → ℕ → ℕ → ℕ → ℕ × ℕ × ℕ
  | 0, bi, bj, bs => (bi, bj, bs)
  | f + 1, bi, bj, bs =>
    if bi + bs < ahi ∧ bj + bs < bhi ∧ isbjunk (charAt b (bj + bs)) = true ∧
        charAt a (bi + bs) = charAt b (bj + bs) then
      junkExtendRight a b ahi bhi f bi bj (bs + 1)
    else (bi, bj, bs)

/-- `SequenceMatcher.find_longest_match(alo, ahi, blo, bhi)`. -/
def findLongestMatch (a b : List Char) (alo ahi blo bhi : ℕ) : ℕ × ℕ × ℕ :=
  let s0 := flmScan a b alo ahi blo bhi
  let s1 := extendLeft a b alo blo s0.1 s0.2.1 s0.2.2
  let s2 := extendRight a b ahi bhi ahi s1.1 s1.2.1 s1.2.2
  let s3 := junkExtendLeft a b alo blo s2.1 s2.2.1 s2.2.2
  junkExtendRight a b ahi bhi ahi s3.1 s3.2.1 s3.2.2

/-- Recursive block decomposition of `get_matching_blocks`: find the
longest match of the window, then recurse on the pieces to its left and
right (Python uses an explicit stack and then sorts; in-order recursion
yields the same sorted list of blocks).  Each recursive call strictly
shrinks `ahi - alo`, so fuel `ahi - alo + 1` suffices. -/
def matchBlocksF (a b : List Char) : ℕ → ℕ → ℕ → ℕ → ℕ → List (ℕ × ℕ × ℕ)
  | 0, _, _, _, _ => []
  | f + 1, alo, ahi, blo, bhi =>
    let x := findLongestMatch a b alo ahi blo bhi
    if x.2.2 = 0 then []
    else
      (if alo < x.1 ∧ blo < x.2.1 then matchBlocksF a b f alo x.1 blo x.2.1
       else []) ++
      (x.1, x.2.1, x.2.2) ::
      (if x.1 + x.2.2 < ahi ∧ x.2.1 + x.2.2 < bhi then
        matchBlocksF a b f (x.1 + x.2.2) ahi (x.2.1 + x.2.2) bhi
      else [])

def matchBlocks (a b : List Char) (alo ahi blo bhi : ℕ) : List (ℕ × ℕ × ℕ) :=
  matchBlocksF a b (ahi - alo + 1) alo ahi blo bhi

/-- The "adjacent blocks" merge pass at the end of `get_matching_blocks`,
folding the sorted block list with accumulator `(i1, j1, k1)` starting from
`(0, 0, 0)`. -/
def nonAdjacent : List (ℕ × ℕ × ℕ) → ℕ × ℕ × ℕ → List (ℕ × ℕ × ℕ)
  | [], acc => if acc.2.2 ≠ 0 then [acc] else []
  | x :: rest, acc =>
    if acc.1 + acc.2.2 = x.1 ∧ acc.2.1 + acc.2.2 = x.2.1 then
      nonAdjacent rest (acc.1, acc.2.1, acc.2.2 + x.2.2)
    else
      (if acc.2.2 ≠ 0 then [acc] else []) ++ nonAdjacent rest x

/-- `SequenceMatcher.get_matching_blocks()` including the terminating
sentinel `(la, lb, 0)`. -/
def getMatchingBlocks (a b : List Char) : List (ℕ × ℕ × ℕ) :=
  nonAdjacent (matchBlocks a b 0 a.length 0 b.length) (0, 0, 0) ++
    [(a.length, b.length, 0)]

/-- `SequenceMatcher.ratio()`: `2*M/T` where `M` is the total size of the
matched blocks and `T` the sum of the lengths; `1` when both are empty. -/
def seqRatio (a b : List Char) : ℚ :=
  let M := ((getMatchingBlocks a b).map (fun t => t.2.2)).sum
  if a.length + b.length = 0 then 1
  else (2 * M : ℚ) / ((a.length : ℚ) + (b.length : ℚ))

/-- `calculate_similarity(text1, text2)` from `src/app.py`:
`SequenceMatcher(None, text1.strip(), text2.strip()).ratio()`. -/
def calculate_similarity (text1 text2 : String) : ℚ :=
  seqRatio (pyStrip text1).data (pyStrip text2).data

/-! ### Structure analysis: a model of BeautifulSoup(`html.parser`)

`analyze_code_structure` only queries the soup through
`find`/`find_all('div', class_=f)`, which inspect every element of the
tree together with its `class` attribute.  The tree is therefore modelled
by the flat list of start tags in document order, each carrying its
(optional) `class` attribute, produced by a scanner that follows
`html.parser`'s tokenisation: comments, declarations and end tags are
skipped, start-tag attribute lists are parsed with quoted or unquoted
values, and `script`/`style` bodies are treated as CDATA. -/

/-- An element as visible to the `find_all` queries: its (lowercased) tag
name and its raw `class` attribute value, if any. -/
structure Elem where
  tag : String
  classAttr : Option String
  deriving Repr, DecidableEq

/-- Remainder of the list after the first occurrence of `needle`
(everything consumed when `needle` does not occur). -/
def skipPast (needle : List Char) : List Char → List Char
  | [] => []
  | c :: t => if pre needle (c :: t) then (c :: t).drop needle.length
              else skipPast needle t

/-- Characters allowed in a tag name by `html.parser`'s `tagfind` pattern
(after the leading letter). -/
def isNameChar (c : Char) : Bool :=
  c.isAlpha || c.isDigit || c = '-' || c = '.' || c = ':' || c = '_'

/-- Record an attribute: only `class` is retained (`html.parser` lowercases
attribute names; on duplicates the last value wins). -/
def updClass (acc : Option String) (name v : List Char) : Option String :=
  if name.map Char.toLower = "class".data then some (String.mk v) else acc

/-- The value of one attribute, read from the text that follows the
attribute name: `=` followed by a single- or double-quoted string or by an
unquoted token; `none` for a bare (valueless) attribute. -/
def attrVal (r : List Char) : Option (List Char) :=
  if pre ['=', '"'] r then some ((r.drop 2).takeWhile (fun d => d ≠ '"'))
  else if pre ['=', '\''] r then some ((r.drop 2).takeWhile (fun d => d ≠ '\''))
  else if pre ['='] r then
    some ((r.drop 1).takeWhile (fun d => !(isPySpace d) && d ≠ '>'))
  else none

/-- Remainder of the tag text after consuming one attribute value. -/
def afterAttr (r : List Char) : List Char :=
  if pre ['=', '"'] r then ((r.drop 2).dropWhile (fun d => d ≠ '"')).drop 1
  else if pre ['=', '\''] r then ((r.drop 2).dropWhile (fun d => d ≠ '\'')).drop 1
  else if pre ['='] r then (r.drop 1).dropWhile (fun d => !(isPySpace d) && d ≠ '>')
  else r

/-- Attribute-list parser for one start tag, following `html.parser`'s
tolerant `attrfind` pattern: skip whitespace and stray `/` (and a stray
`=`, a degenerate case no claim exercises), read a name up to
`=`/space/`/`/`>`, then the optional value via `attrVal`/`afterAttr`.
Returns the retained `class` value and the input remainder after `>`.
Each step consumes at least one character, so fuel = input length
suffices. -/
def parseAttrsF : ℕ → List Char → Option String → Option String × List Char
  | 0, _, acc => (acc, [])
  | _ + 1, [], acc => (acc, [])
  | f + 1, c :: t, acc =>
    if c = '>' then (acc, t)
    else if c = '/' ∨ c = '=' ∨ isPySpace c then parseAttrsF f t acc
    else
      -- `c` opens an attribute name (it is none of `>`, `/`, `=`, space)
      let name := c :: t.takeWhile (fun d =>
        !(isPySpace d) && d ≠ '/' && d ≠ '=' && d ≠ '>')
      let r1 := t.dropWhile (fun d =>
        !(isPySpace d) && d ≠ '/' && d ≠ '=' && d ≠ '>')
      parseAttrsF f (afterAttr r1)
        (match attrVal r1 with
          | some v => updClass acc name v
          | none => acc)

def parseAttrs (l : List Char) (acc : Option String) :
    Option String × List Char :=
  parseAttrsF l.length l acc

/-- Start-tag scanner over the document, following `html.parser`:
comments `<!-- … -->`, declarations `<!…>` and end tags `</…>` are
consumed without producing elements; a `<` followed by a letter opens a
start tag whose name is lowercased and whose attributes are parsed;
`script`/`style` switch to CDATA mode until the matching end tag; any
other character is text.  Each step consumes at least one character, so
fuel = input length suffices; the attribute parser reuses the scanner's
remaining fuel, which likewise dominates its input's length. -/
def scanTagsF : ℕ → List Char → List Elem
  | 0, _ => []
  | _ + 1, [] => []
  | f + 1, c :: t =>
    if c = '<' then
      if pre "!--".data t then scanTagsF f (skipPast "-->".data t)
      else
        match t with
        | '!' :: _ => scanTagsF f (skipPast ">".data t)
        | '/' :: _ => scanTagsF f (skipPast ">".data t)
        | d :: _ =>
          if d.isAlpha then
            let name := (t.takeWhile isNameChar).map Char.toLower
            let pa := parseAttrsF f (t.dropWhile isNameChar) none
            if name = "script".data ∨ name = "style".data then
              ⟨String.mk name, pa.1⟩ ::
                scanTagsF f (skipPast ('<' :: '/' :: name) pa.2)
            else ⟨String.mk name, pa.1⟩ :: scanTagsF f pa.2
          else scanTagsF f t
        | [] => []
    else scanTagsF f t

def scanTags (l : List Char) : List Elem := scanTagsF l.length l

/-- Split a `class` attribute value on whitespace into its tokens, as
BeautifulSoup does for the multi-valued `class` attribute.  Fuel = input
length suffices. -/
def splitWsF : ℕ → List Char → List (List Char)
  | 0, _ => []
  | _ + 1, [] => []
  | f + 1, c :: t =>
    if isPySpace c then splitWsF f t
    else (c :: t.takeWhile (fun d => !(isPySpace d))) ::
      splitWsF f (t.dropWhile (fun d => !(isPySpace d)))

def splitWs (l : List Char) : List (List Char) := splitWsF l.length l

/-- The `class_=lambda x: x and 'needle' in x` matcher as applied by
BeautifulSoup: a tag with no `class` attribute yields `None` (falsy); a
multi-valued `class` attribute is matched against each of its tokens, with
a joined-string fallback that adds nothing for whitespace-free needles. -/
def bsClassMatch (needle : String) (attr : Option String) : Bool :=
  match attr with
  | none => false
  | some s => (splitWs s.data).any (fun tok => hasSub needle.data tok)

/-- The matcher used by `find`/`find_all('div', class_=...)` in
`analyze_code_structure`. -/
def divClassPred (needle : String) (e : Elem) : Bool :=
  e.tag == "div" && bsClassMatch needle e.classAttr

/-- The `results` record built by `analyze_code_structure`. -/
structure StructureFacts where
  has_doctype : Bool
  has_bootstrap_css : Bool
  has_bootstrap_js : Bool
  has_container : Bool
  row_count : ℕ
  has_custom_css : Bool
  has_media_query : Bool
  col_elements : ℕ
  deriving Repr, DecidableEq

/-- `analyze_code_structure(code)` from `src/app.py`.  The `try`/`except`
wrapper returns `None` when parsing raises; `html.parser` is a lenient
tokenizer that does not raise on any text (the model is total), so the
analyzer always produces `some` facts here. -/
def analyze_code_structure (code : String) : Option StructureFacts :=
  some
    { has_doctype := pre "<!DOCTYPE html>".data (pyStrip code).data
      has_bootstrap_css :=
        hasSub "bootstrap".data code.data && hasSub ".css".data code.data
      has_bootstrap_js :=
        hasSub "bootstrap".data code.data && hasSub ".js".data code.data
      has_container :=
        ((scanTags code.data).find? (divClassPred "container")).isSome
      row_count := ((scanTags code.data).filter (divClassPred "row")).length
      has_custom_css := hasSub "<style>".data code.data
      has_media_query := hasSub "@media".data code.data
      col_elements :=
        ((scanTags code.data).filter (divClassPred "col-")).length }

/-- The `structure_score` computed by the presentation layer:
`sum` of the eight listed boolean criteria in source order. -/
def structure_score (r : StructureFacts) : ℕ :=
  ([r.has_doctype, r.has_bootstrap_css, r.has_bootstrap_js, r.has_container,
    decide (2 ≤ r.row_count), r.has_custom_css, r.has_media_query,
    decide (6 ≤ r.col_elements)].map (fun b => if b then 1 else 0)).sum

/-! ### The ten AI-indicator checks of `check_ai_indicators` -/

/-- `re.search` of `^\s{2}` with `re.MULTILINE`: in multiline mode `^`
matches at the start of the text and immediately after every newline, and
`\s` is any (Unicode) whitespace character, so the check succeeds iff two
consecutive whitespace characters stand at some line-start position.  The
flag tracks whether the current position is a line start. -/
def headSpace : List Char → Bool
  | d :: _ => isPySpace d
  | [] => false

def twoSpaceAux : Bool → List Char → Bool
  | _, [] => false
  | atStart, c :: t =>
    (atStart && isPySpace c && headSpace t) || twoSpaceAux (c = '\n') t

/-- Indicator 1: "perfect formatting" via the line-start `\s{2}` search. -/
def twoSpaceCheck (code : String) : Bool := twoSpaceAux true code.data

/-- `re.findall` of `<!--.*?-->` with `re.DOTALL`, counted: the
non-overlapping comment spans; the non-greedy `.*?` with DOTALL pairs each
`<!--` with the nearest following `-->`.  If a `<!--` has no closing
`-->`, no later start position can succeed either, so scanning stops.
Each step consumes at least one character, so fuel = input length
suffices. -/
def commentCountF : ℕ → List Char → ℕ
  | 0, _ => 0
  | _ + 1, [] => 0
  | f + 1, c :: t =>
    if pre "<!--".data (c :: t) then
      if hasSub "-->".data ((c :: t).drop 4) then
        commentCountF f (skipPast "-->".data ((c :: t).drop 4)) + 1
      else 0
    else commentCountF f t

def commentCount (code : String) : ℕ :=
  commentCountF code.data.length code.data

/-- The fixed fragment list of indicator 4. -/
def bootstrapClasses : List String :=
  ["container", "row", "col-", "bg-", "text-", "mt-", "mb-", "p-"]

/-- `sum(1 for cls in bootstrap_classes if cls in code)`. -/
def bootstrapCount (code : String) : ℕ :=
  (bootstrapClasses.filter (fun cls => hasSub cls.data code.data)).length

/-- Lowercase letter or hyphen, the character class `[a-z-]`. -/
def isKebabChar (c : Char) : Bool := ('a' ≤ c && c ≤ 'z') || c = '-'

/-- `re.search` of `class="[a-z-]+"`: after a literal `class="`, a
nonempty maximal run of `[a-z-]` characters must be followed by `"`
(backtracking cannot help because `"` is not in the class). -/
def kebabAux : List Char → Bool
  | [] => false
  | c :: t =>
    (pre "class=\"".data (c :: t) &&
      (let r := (c :: t).drop 7
       let run := r.takeWhile isKebabChar
       !run.isEmpty &&
         (match r.dropWhile isKebabChar with
           | '"' :: _ => true
           | _ => false))) ||
    kebabAux t

def kebabCheck (code : String) : Bool := kebabAux code.data

/-- The ten `(condition, weight, label)` checks of `check_ai_indicators`,
in source order; checks 2 and 4 interpolate the counts they computed. -/
def aiChecks (code : String) : List (Bool × ℚ × String) :=
  let cc := commentCount code
  let bc := bootstrapCount code
  [ (twoSpaceCheck code, 1, "Consistent 2-space indentation"),
    (decide (3 ≤ cc), 3/2,
      "Multiple descriptive comments (" ++ toString cc ++ " found)"),
    (hasSub "<header>".data code.data || hasSub "<section>".data code.data ||
        hasSub "<article>".data code.data, 1/2, "Semantic HTML5 elements"),
    (decide (6 ≤ bc), 1,
      "Extensive Bootstrap utility classes (" ++ toString bc ++ " types)"),
    (hasSub "<style>".data code.data && hasSub "@media".data code.data, 1,
      "Custom CSS with media queries"),
    (kebabCheck code, 1/2, "Consistent kebab-case naming"),
    (hasSub "<!DOCTYPE html>".data code.data &&
        hasSub "viewport".data code.data, 1,
      "Proper HTML5 structure with meta viewport"),
    (hasSub "cdn.jsdelivr.net".data code.data ||
        hasSub "cdnjs.cloudflare.com".data code.data, 1,
      "CDN links for libraries"),
    (decide (2 ≤ countSub "<div class=\"row".data code.data), 1,
      "Complex nested grid structure"),
    (hasSub "lang=\"en\"".data code.data &&
        hasSub "charset=\"UTF-8\"".data code.data, 1/2,
      "Accessibility and encoding attributes") ]

/-- `check_ai_indicators(code)` from `src/app.py`: run the checks in
order, accumulating the weighted score and the triggered labels, and
return `min(ai_score, 10)` with the label list. -/
def check_ai_indicators (code : String) : ℚ × List String :=
  let r := (aiChecks code).foldl
    (fun acc c => if c.1 then (acc.1 + c.2.1, acc.2 ++ [c.2.2]) else acc)
    ((0 : ℚ), ([] : List String))
  (min r.1 10, r.2)

/-! ### Declarative companions used to state the claims -/

/-- Sum of the weights of the triggered checks, in the declarative
reading of the indicator contract. -/
def triggeredWeightSum (code : String) : ℚ :=
  (((aiChecks code).filter (fun c => c.1)).map (fun c => c.2.1)).sum

/-- Labels of the triggered checks, in evaluation order. -/
def triggeredLabels (code : String) : List String :=
  ((aiChecks code).filter (fun c => c.1)).map (fun c => c.2.2)

/-- The fixed weight a label stands for (checks 2 and 4 are recognised by
the constant prefix before their interpolated count). -/
def weightOfLabel (s : String) : ℚ :=
  if s = "Consistent 2-space indentation" then 1
  else if pre "Multiple descriptive comments (".data s.data then 3/2
  else if s = "Semantic HTML5 elements" then 1/2
  else if pre "Extensive Bootstrap utility classes (".data s.data then 1
  else if s = "Custom CSS with media queries" then 1
  else if s = "Consistent kebab-case naming" then 1/2
  else if s = "Proper HTML5 structure with meta viewport" then 1
  else if s = "CDN links for libraries" then 1
  else if s = "Complex nested grid structure" then 1
  else if s = "Accessibility and encoding attributes" then 1/2
  else 0

/-- Spec reading of `has_container` in which *any* element (of any tag
name) with a matching class counts, not only `div` elements. -/
def specAnyElemContainer (code : String) : Bool :=
  (scanTags code.data).any (fun e => bsClassMatch "container" e.classAttr)

/-- Spec reading of `row_count`/`col_elements` over *any* element. -/
def specAnyElemCount (needle : String) (code : String) : ℕ :=
  ((scanTags code.data).filter
    (fun e => bsClassMatch needle e.classAttr)).length

/-- Well-formedness of a candidate best block relative to the search
window: it starts inside the window, a nonzero block fits inside it, and a
zero-size block still sits at the window origin `(alo, blo)`. -/
def BestWf (alo ahi blo bhi : ℕ) (st : ℕ × ℕ × ℕ) : Prop :=
  alo ≤ st.1 ∧ blo ≤ st.2.1 ∧
  (st.2.2 ≠ 0 → st.1 + st.2.2 ≤ ahi ∧ st.2.1 + st.2.2 ≤ bhi) ∧
  (st.2.2 = 0 → st.1 = alo ∧ st.2.1 = blo)

/-- Invariant on a `j2len` row built while processing row index
`alo + m`: every stored chain length is at most `m + 1` and respects the
`blo` window bound relative to its key. -/
def RowWf (blo m : ℕ) (l : List (ℕ × ℕ)) : Prop :=
  ∀ p ∈ l, p.2 ≤ m ∧ blo + p.2 ≤ p.1 + 1

/-- Length of the chain of pairwise-equal, non-popular positions ending at
`(i, j)` when matching `s` against itself: the value `j2len[j]` holds
after the scan has processed row `i`.  Zero when the characters differ,
are out of range, or `s[j]` was dropped by autojunk. -/
def chainLen (s : List Char) : ℕ → ℕ → ℕ
  | 0, j =>
    if (s.get? 0).isSome ∧ s.get? 0 = s.get? j ∧
        isPopular s (charAt s j) = false then 1 else 0
  | i + 1, 0 =>
    if (s.get? (i + 1)).isSome ∧ s.get? (i + 1) = s.get? 0 ∧
        isPopular s (charAt s 0) = false then 1 else 0
  | i + 1, j + 1 =>
    if (s.get? (i + 1)).isSome ∧ s.get? (i + 1) = s.get? (j + 1) ∧
        isPopular s (charAt s (j + 1)) = false then chainLen s i j + 1
    else 0

/-- The fixed reference document `EXPECTED_HTML` from `src/app.py`. -/
def EXPECTED_HTML : String :=
  "<!DOCTYPE html>\n" ++
  "<html lang=\"en\">\n" ++
  "<head>\n" ++
  "  <meta charset=\"UTF-8\">\n" ++
  "  <meta name=\"viewport\" content=\"width=device-width, initial-scale=1.0\">\n" ++
  "  <title>Advanced Bootstrap Grid Layout</title>\n" ++
  "  <!-- Bootstrap CSS -->\n" ++
  "  <link href=\"https://cdn.jsdelivr.net/npm/bootstrap@5.3.2/dist/css/bootstrap.min.css\" rel=\"stylesheet\">\n" ++
  "  <style>\n" ++
  "    /* Custom media query (extra challenge) */\n" ++
  "    @media (max-width: 600px) \x7b\n" ++
  "      .hero-text \x7b\n" ++
  "        font-size: 1.2rem;\n" ++
  "        text-align: center;\n" ++
  "      \x7d\n" ++
  "    \x7d\n" ++
  "    .box \x7b\n" ++
  "      padding: 20px;\n" ++
  "      color: white;\n" ++
  "      border-radius: 8px;\n" ++
  "    \x7d\n" ++
  "  </style>\n" ++
  "</head>\n" ++
  "<body>\n" ++
  "  <div class=\"container mt-4\">\n" ++
  "    <!-- Hero Section -->\n" ++
  "    <div class=\"row mb-4\">\n" ++
  "      <div class=\"col-12 bg-dark text-white p-4 hero-text\">\n" ++
  "        <h2 class=\"mb-0\">Advanced Bootstrap Grid Layout</h2>\n" ++
  "        <p class=\"mb-0\">This layout changes at 3 different breakpoints.</p>\n" ++
  "      </div>\n" ++
  "    </div>\n" ++
  "    <!-- Main 3-Column Layout -->\n" ++
  "    <div class=\"row g-3\">\n" ++
  "      <div class=\"col-12 col-md-6 col-lg-4\">\n" ++
  "        <div class=\"box bg-primary\">Main Box 1</div>\n" ++
  "      </div>\n" ++
  "      <div class=\"col-12 col-md-6 col-lg-4\">\n" ++
  "        <div class=\"box bg-success\">Main Box 2</div>\n" ++
  "      </div>\n" ++
  "      <div class=\"col-12 col-md-12 col-lg-4\">\n" ++
  "        <div class=\"box bg-danger\">Main Box 3</div>\n" ++
  "      </div>\n" ++
  "    </div>\n" ++
  "    <!-- Nested Grid Section -->\n" ++
  "    <div class=\"row mt-4\">\n" ++
  "      <div class=\"col-12 col-lg-8\">\n" ++
  "        <div class=\"box bg-warning text-dark\">\n" ++
  "          <h4>Main Content Area</h4>\n" ++
  "          <!-- Nested Row -->\n" ++
  "          <div class=\"row mt-3\">\n" ++
  "            <div class=\"col-6 col-md-4\">\n" ++
  "              <div class=\"box bg-secondary\">Nested 1</div>\n" ++
  "            </div>\n" ++
  "            <div class=\"col-6 col-md-4\">\n" ++
  "              <div class=\"box bg-info text-dark\">Nested 2</div>\n" ++
  "            </div>\n" ++
  "            <div class=\"col-12 col-md-4\">\n" ++
  "              <div class=\"box bg-dark\">Nested 3</div>\n" ++
  "            </div>\n" ++
  "          </div>\n" ++
  "        </div>\n" ++
  "      </div>\n" ++
  "      <!-- Sidebar -->\n" ++
  "      <div class=\"col-12 col-lg-4\">\n" ++
  "        <div class=\"box bg-primary\">Sidebar Area</div>\n" ++
  "      </div>\n" ++
  "    </div>\n" ++
  "  </div>\n" ++
  "  <!-- Bootstrap JS -->\n" ++
  "  <script src=\"https://cdn.jsdelivr.net/npm/bootstrap@5.3.2/dist/js/bootstrap.bundle.min.js\"></script>\n" ++
  "</body>\n" ++
  "</html>"
/-- A text that triggers all ten indicator checks: two-space indentation,
three comments, a `<section>`, all eight Bootstrap fragments, `<style>`
with `@media`, a kebab-case class, DOCTYPE with viewport, a CDN link, two
`<div class="row` occurrences, and the `lang`/`charset` attributes. -/
def allTenInput : String :=
  "<!DOCTYPE html>\n<html lang=\"en\">\n  <meta charset=\"UTF-8\" name=\"viewport\">\n" ++
  "<!--a--><!--b--><!--c-->\n<section></section>\n<style>@media</style>\n" ++
  "<div class=\"box\"></div>\n<div class=\"row\"><div class=\"row\"></div></div>\n" ++
  "<script src=\"https://cdn.jsdelivr.net/x.js\"></script>\ncontainer col- bg- text- mt- mb- p-\n"

/-- Unparseable garbage: control characters and no markup. -/
def garbageInput : String := "\x00\x01binary\x02garbage\x03"

/-- A non-`div` element carrying `container`, `row` and `col-` class
tokens. -/
def spanInput : String := "<span class=\"container row col-3\"></span>"

/-! ## Theorems -/

set_option maxRecDepth 1000000
set_option maxHeartbeats 4000000

theorem pre_append (p r : List Char) : pre p (p ++ r) = true := by
  induction p with
  | nil => rfl
  | cons a as ih => simp [pre, ih]

theorem bestWf_triple (alo ahi blo bhi bi bj bs : ℕ) :
    BestWf alo ahi blo bhi (bi, bj, bs) ↔
      alo ≤ bi ∧ blo ≤ bj ∧
      (bs ≠ 0 → bi + bs ≤ ahi ∧ bj + bs ≤ bhi) ∧
      (bs = 0 → bi = alo ∧ bj = blo) := Iff.rfl

theorem alGet_le {l : List (ℕ × ℕ)} {B : ℕ} (h : ∀ p ∈ l, p.2 ≤ B) (k : ℕ) :
    alGet l k ≤ B := by
  unfold alGet
  cases hf : l.find? (fun p => p.1 == k) with
  | none => simp
  | some p =>
    have hm := List.mem_of_find?_eq_some hf
    simpa using h p hm

theorem alGet_key {l : List (ℕ × ℕ)} {blo : ℕ}
    (h : ∀ p ∈ l, blo + p.2 ≤ p.1 + 1) (k : ℕ) :
    blo + alGet l k ≤ k + 1 ∨ alGet l k = 0 := by
  unfold alGet
  cases hf : l.find? (fun p => p.1 == k) with
  | none => right; simp
  | some p =>
    left
    have hk : p.1 = k := by simpa using List.find?_some hf
    have hm := List.mem_of_find?_eq_some hf
    have := h p hm
    simp only [Option.map_some', Option.getD_some]
    omega

/-- Inner-loop invariant preservation for one scan row. -/
theorem rowFold_wf {alo ahi blo bhi m i : ℕ} {prev : List (ℕ × ℕ)}
    (hprev : RowWf blo m prev) (hi : alo + m = i) (hiu : i < ahi) :
    ∀ (js : List ℕ), (∀ j ∈ js, blo ≤ j ∧ j < bhi) →
    ∀ (acc : List (ℕ × ℕ)) (best : ℕ × ℕ × ℕ),
      RowWf blo (m + 1) acc → BestWf alo ahi blo bhi best →
      RowWf blo (m + 1) (js.foldl (rowStepF prev i) (acc, best)).1 ∧
      BestWf alo ahi blo bhi (js.foldl (rowStepF prev i) (acc, best)).2 := by
  intro js
  induction js with
  | nil => intro _ acc best hacc hb; exact ⟨hacc, hb⟩
  | cons j js ih =>
    intro hjs acc best hacc hb
    have hj := hjs j (by simp)
    have hjs' : ∀ x ∈ js, blo ≤ x ∧ x < bhi := fun x hx => hjs x (by simp [hx])
    simp only [List.foldl_cons]
    have hkm : rowK prev j ≤ m + 1 := by
      unfold rowK
      have := alGet_le (fun p hp => (hprev p hp).1) (j - 1)
      split <;> omega
    have hkj : blo + rowK prev j ≤ j + 1 := by
      unfold rowK
      rcases Nat.eq_zero_or_pos j with hj0 | hjpos
      · subst hj0; simp; omega
      · rcases alGet_key (fun p hp => (hprev p hp).2) (j - 1) with h1 | h2
        · split <;> omega
        · split <;> omega
    have hstep : rowStepF prev i (acc, best) j =
        (acc ++ [(j, rowK prev j)],
          if best.2.2 < rowK prev j then
            (i + 1 - rowK prev j, j + 1 - rowK prev j, rowK prev j)
          else best) := rfl
    rw [hstep]
    apply ih hjs'
    · intro p hp
      rcases List.mem_append.mp hp with h | h
      · exact hacc p h
      · simp only [List.mem_singleton] at h
        subst h
        exact ⟨hkm, hkj⟩
    · split
      · rename_i hlt
        rw [bestWf_triple]
        have hkpos : rowK prev j ≠ 0 := by unfold rowK; omega
        exact ⟨by omega, by omega, fun _ => ⟨by omega, by omega⟩,
          fun habs => absurd habs hkpos⟩
      · exact hb

/-- Row-level invariant preservation for the scan. -/
theorem rowStep_wf {alo ahi blo bhi m i : ℕ} {prev : List (ℕ × ℕ)}
    {best : ℕ × ℕ × ℕ}
    (hprev : RowWf blo m prev) (hbest : BestWf alo ahi blo bhi best)
    (hi : alo + m = i) (hiu : i < ahi)
    {js : List ℕ} (hjs : ∀ j ∈ js, blo ≤ j ∧ j < bhi) :
    RowWf blo (m + 1) (rowStep prev best i js).1 ∧
    BestWf alo ahi blo bhi (rowStep prev best i js).2 :=
  rowFold_wf hprev hi hiu js hjs [] best (by intro p hp; simp at hp) hbest

theorem rowJs_bounds (a b : List Char) (blo bhi i : ℕ) :
    ∀ j ∈ rowJs a b blo bhi i, blo ≤ j ∧ j < bhi := by
  intro j hj
  unfold rowJs at hj
  have := List.of_mem_filter hj
  simp at this
  exact this

/-- The dictionary scan produces a well-formed best block. -/
theorem flmScan_wf (a b : List Char) (alo ahi blo bhi : ℕ) :
    BestWf alo ahi blo bhi (flmScan a b alo ahi blo bhi) := by
  unfold flmScan
  suffices h : ∀ (len start m : ℕ) (prev : List (ℕ × ℕ)) (best : ℕ × ℕ × ℕ),
      start = alo + m → (start + len ≤ ahi ∨ len = 0) →
      RowWf blo m prev → BestWf alo ahi blo bhi best →
      BestWf alo ahi blo bhi
        (((List.range' start len).foldl
          (fun st i => rowStep st.1 st.2 i (rowJs a b blo bhi i))
          (prev, best)).2) by
    refine h (ahi - alo) alo 0 [] (alo, blo, 0) rfl ?_ ?_ ?_
    · rcases le_or_lt alo ahi with h1 | h1
      · left; omega
      · right; omega
    · intro p hp; simp at hp
    · exact ⟨le_refl _, le_refl _, fun h => absurd rfl h, fun _ => ⟨rfl, rfl⟩⟩
  intro len
  induction len with
  | zero => intro start m prev best _ _ _ hb; simpa using hb
  | succ n ih =>
    intro start m prev best hsm hlen hprev hb
    simp only [List.range'_succ, List.foldl_cons]
    have hlt : start < ahi := by omega
    have step := rowStep_wf hprev hb hsm.symm hlt (rowJs_bounds a b blo bhi start)
    exact ih (start + 1) (m + 1) _ _ (by omega) (by omega) step.1 step.2

theorem extendLeft_wf (a b : List Char) (alo ahi blo bhi : ℕ) :
    ∀ bi bj bs, BestWf alo ahi blo bhi (bi, bj, bs) →
      BestWf alo ahi blo bhi (extendLeft a b alo blo bi bj bs) := by
  intro bi
  induction bi with
  | zero => intro bj bs hb; exact hb
  | succ bi ih =>
    intro bj bs hb
    rw [bestWf_triple] at hb
    obtain ⟨hb1, hb2, hb3, hb4⟩ := hb
    rw [extendLeft]
    split
    · rename_i hcond
      obtain ⟨h1, h2, _, _⟩ := hcond
      rcases Nat.eq_zero_or_pos bs with hbs | hbs
      · exfalso
        have := hb4 hbs
        omega
      · have hfit := hb3 (by omega)
        refine ih (bj - 1) (bs + 1) ?_
        rw [bestWf_triple]
        exact ⟨by omega, by omega, fun _ => ⟨by omega, by omega⟩,
          fun habs => by omega⟩
    · rw [bestWf_triple]
      exact ⟨hb1, hb2, hb3, hb4⟩

theorem extendRight_wf (a b : List Char) (alo ahi blo bhi : ℕ) :
    ∀ fuel bi bj bs, BestWf alo ahi blo bhi (bi, bj, bs) →
      BestWf alo ahi blo bhi (extendRight a b ahi bhi fuel bi bj bs) := by
  intro fuel
  induction fuel with
  | zero => intro bi bj bs hb; exact hb
  | succ f ih =>
    intro bi bj bs hb
    rw [bestWf_triple] at hb
    obtain ⟨hb1, hb2, hb3, hb4⟩ := hb
    rw [extendRight]
    split
    · rename_i hcond
      obtain ⟨h1, h2, _, _⟩ := hcond
      refine ih bi bj (bs + 1) ?_
      rw [bestWf_triple]
      exact ⟨hb1, hb2, fun _ => ⟨by omega, by omega⟩, fun habs => by omega⟩
    · rw [bestWf_triple]
      exact ⟨hb1, hb2, hb3, hb4⟩

theorem junkExtendLeft_id (a b : List Char) (alo blo bi bj bs : ℕ) :
    junkExtendLeft a b alo blo bi bj bs = (bi, bj, bs) := by
  cases bi with
  | zero => rfl
  | succ bi =>
    rw [junkExtendLeft]
    simp [isbjunk]

theorem junkExtendRight_id (a b : List Char) (ahi bhi fuel bi bj bs : ℕ) :
    junkExtendRight a b ahi bhi fuel bi bj bs = (bi, bj, bs) := by
  cases fuel with
  | zero => rfl
  | succ f =>
    rw [junkExtendRight]
    simp [isbjunk]

/-- The block returned by `find_longest_match` fits the search window. -/
theorem findLongestMatch_wf (a b : List Char) (alo ahi blo bhi : ℕ) :
    BestWf alo ahi blo bhi (findLongestMatch a b alo ahi blo bhi) := by
  unfold findLongestMatch
  have h0 := flmScan_wf a b alo ahi blo bhi
  have h1 := extendLeft_wf a b alo ahi blo bhi _ _ _ h0
  have h2 := extendRight_wf a b alo ahi blo bhi ahi _ _ _ h1
  simpa [junkExtendLeft_id, junkExtendRight_id] using h2

/-- The blocks found inside a window use at most the window's width on
either side. -/
theorem matchBlocksF_sum (a b : List Char) :
    ∀ (f alo ahi blo bhi : ℕ),
      ((matchBlocksF a b f alo ahi blo bhi).map (fun t => t.2.2)).sum ≤
          ahi - alo ∧
      ((matchBlocksF a b f alo ahi blo bhi).map (fun t => t.2.2)).sum ≤
          bhi - blo := by
  intro f
  induction f with
  | zero => intro alo ahi blo bhi; simp [matchBlocksF]
  | succ f ih =>
    intro alo ahi blo bhi
    rw [matchBlocksF]
    have hwf := findLongestMatch_wf a b alo ahi blo bhi
    obtain ⟨w1, w2, w3, w4⟩ := hwf
    split
    · simp
    · rename_i hk
      have hfit := w3 hk
      simp only [List.map_append, List.map_cons, List.sum_append,
        List.sum_cons]
      constructor
      · have hL : ((if alo < (findLongestMatch a b alo ahi blo bhi).1 ∧
            blo < (findLongestMatch a b alo ahi blo bhi).2.1 then
              matchBlocksF a b f alo (findLongestMatch a b alo ahi blo bhi).1
                blo (findLongestMatch a b alo ahi blo bhi).2.1
            else []).map (fun t => t.2.2)).sum ≤
            (findLongestMatch a b alo ahi blo bhi).1 - alo := by
          split
          · exact (ih alo _ blo _).1
          · simp
        have hR : ((if (findLongestMatch a b alo ahi blo bhi).1 +
              (findLongestMatch a b alo ahi blo bhi).2.2 < ahi ∧
              (findLongestMatch a b alo ahi blo bhi).2.1 +
              (findLongestMatch a b alo ahi blo bhi).2.2 < bhi then
                matchBlocksF a b f
                  ((findLongestMatch a b alo ahi blo bhi).1 +
                    (findLongestMatch a b alo ahi blo bhi).2.2) ahi
                  ((findLongestMatch a b alo ahi blo bhi).2.1 +
                    (findLongestMatch a b alo ahi blo bhi).2.2) bhi
            else []).map (fun t => t.2.2)).sum ≤
            ahi - ((findLongestMatch a b alo ahi blo bhi).1 +
              (findLongestMatch a b alo ahi blo bhi).2.2) := by
          split
          · exact (ih _ ahi _ bhi).1
          · simp
        omega
      · have hL : ((if alo < (findLongestMatch a b alo ahi blo bhi).1 ∧
            blo < (findLongestMatch a b alo ahi blo bhi).2.1 then
              matchBlocksF a b f alo (findLongestMatch a b alo ahi blo bhi).1
                blo (findLongestMatch a b alo ahi blo bhi).2.1
            else []).map (fun t => t.2.2)).sum ≤
            (findLongestMatch a b alo ahi blo bhi).2.1 - blo := by
          split
          · exact (ih alo _ blo _).2
          · simp
        have hR : ((if (findLongestMatch a b alo ahi blo bhi).1 +
              (findLongestMatch a b alo ahi blo bhi).2.2 < ahi ∧
              (findLongestMatch a b alo ahi blo bhi).2.1 +
              (findLongestMatch a b alo ahi blo bhi).2.2 < bhi then
                matchBlocksF a b f
                  ((findLongestMatch a b alo ahi blo bhi).1 +
                    (findLongestMatch a b alo ahi blo bhi).2.2) ahi
                  ((findLongestMatch a b alo ahi blo bhi).2.1 +
                    (findLongestMatch a b alo ahi blo bhi).2.2) bhi
            else []).map (fun t => t.2.2)).sum ≤
            bhi - ((findLongestMatch a b alo ahi blo bhi).2.1 +
              (findLongestMatch a b alo ahi blo bhi).2.2) := by
          split
          · exact (ih _ ahi _ bhi).2
          · simp
        omega

/-- The merge pass preserves the total size of the blocks. -/
theorem nonAdjacent_sum :
    ∀ (l : List (ℕ × ℕ × ℕ)) (acc : ℕ × ℕ × ℕ),
      ((nonAdjacent l acc).map (fun t => t.2.2)).sum =
        acc.2.2 + (l.map (fun t => t.2.2)).sum := by
  intro l
  induction l with
  | nil =>
    intro acc
    rw [nonAdjacent]
    split
    · simp
    · rename_i h
      simp at h
      simp [h]
  | cons x rest ih =>
    intro acc
    rw [nonAdjacent]
    split
    · rw [ih]
      simp only [List.map_cons, List.sum_cons]
      omega
    · split
      · rw [List.map_append, List.sum_append, ih]
        simp only [List.map_cons, List.sum_cons, List.map_nil,
          List.sum_nil]
        omega
      · rename_i h
        simp at h
        simp only [List.nil_append]
        rw [ih]
        simp only [List.map_cons, List.sum_cons]
        omega

/-- Total matched size is bounded by both input lengths. -/
theorem getMatchingBlocks_sum_le (a b : List Char) :
    ((getMatchingBlocks a b).map (fun t => t.2.2)).sum ≤ a.length ∧
    ((getMatchingBlocks a b).map (fun t => t.2.2)).sum ≤ b.length := by
  unfold getMatchingBlocks matchBlocks
  rw [List.map_append, List.sum_append]
  rw [nonAdjacent_sum]
  have := matchBlocksF_sum a b (a.length - 0 + 1) 0 a.length 0 b.length
  simp only [List.map_cons, List.map_nil, List.sum_cons, List.sum_nil]
  omega

/-- `ratio()` always lies in `[0, 1]`. -/
theorem seqRatio_bounds (a b : List Char) :
    0 ≤ seqRatio a b ∧ seqRatio a b ≤ 1 := by
  unfold seqRatio
  split
  · norm_num
  · rename_i hT
    have hsum := getMatchingBlocks_sum_le a b
    set M := ((getMatchingBlocks a b).map (fun t => t.2.2)).sum with hM
    have hTpos : (0 : ℚ) < (a.length : ℚ) + (b.length : ℚ) := by
      have : 0 < a.length + b.length := Nat.pos_of_ne_zero hT
      exact_mod_cast this
    constructor
    · positivity
    · rw [div_le_one hTpos]
      have h2 : 2 * (M : ℚ) ≤ (a.length : ℚ) + (b.length : ℚ) := by
        have : 2 * M ≤ a.length + b.length := by omega
        exact_mod_cast this
      exact h2

/-- Evaluating the accumulation loop of `check_ai_indicators`: the score
is the initial score plus the weights of the triggered checks, and the
labels are appended in evaluation order. -/
theorem aiFold (l : List (Bool × ℚ × String)) :
    ∀ (s : ℚ) (acc : List String),
      l.foldl (fun acc c => if c.1 then (acc.1 + c.2.1, acc.2 ++ [c.2.2])
          else acc) (s, acc) =
        (s + ((l.filter (fun c => c.1)).map (fun c => c.2.1)).sum,
          acc ++ (l.filter (fun c => c.1)).map (fun c => c.2.2)) := by
  induction l with
  | nil => intro s acc; simp
  | cons c l ih =>
    intro s acc
    by_cases hc : c.1
    · simp [List.foldl_cons, hc, ih, List.filter_cons_of_pos, add_assoc]
    · simp [List.foldl_cons, hc, ih, List.filter_cons_of_neg]

/-- Declarative characterization of `check_ai_indicators`. -/
theorem check_ai_eq (code : String) :
    check_ai_indicators code =
      (min (triggeredWeightSum code) 10, triggeredLabels code) := by
  unfold check_ai_indicators triggeredWeightSum triggeredLabels
  rw [aiFold]
  simp

theorem pre_head_ne {a c : Char} (h : a ≠ c) (p l : List Char) :
    pre (a :: p) (c :: l) = false := by
  simp [pre, h]

theorem strData_append (x y : String) : (x ++ y).data = x.data ++ y.data := rfl

theorem weightOfLabel_comments (x : String) :
    weightOfLabel ("Multiple descriptive comments (" ++ x ++ " found)") =
      3 / 2 := by
  unfold weightOfLabel
  rw [if_neg, if_pos]
  · rw [strData_append, strData_append]
    have : ("Multiple descriptive comments (" : String).data ++ x.data ++
        (" found)" : String).data =
        ("Multiple descriptive comments (" : String).data ++
          (x.data ++ (" found)" : String).data) := by
      rw [List.append_assoc]
    rw [this]
    exact pre_append _ _
  · intro habs
    have := congrArg String.data habs
    rw [strData_append, strData_append] at this
    simp at this

theorem weightOfLabel_bootstrap (x : String) :
    weightOfLabel ("Extensive Bootstrap utility classes (" ++ x ++ " types)") =
      1 := by
  have hE : ("Extensive Bootstrap utility classes (" : String).data =
      'E' :: "xtensive Bootstrap utility classes (".data := rfl
  have hM : ("Multiple descriptive comments (" : String).data =
      'M' :: "ultiple descriptive comments (".data := rfl
  unfold weightOfLabel
  rw [if_neg, if_neg, if_neg, if_pos]
  · rw [strData_append, strData_append, List.append_assoc]
    exact pre_append _ _
  · intro habs
    have := congrArg String.data habs
    rw [strData_append, strData_append] at this
    simp at this
  · rw [strData_append, strData_append, List.append_assoc, hE, hM,
      List.cons_append]
    rw [pre_head_ne (by decide)]
    simp
  · intro habs
    have := congrArg String.data habs
    rw [strData_append, strData_append] at this
    simp at this

theorem weightOfLabel_two_space :
    weightOfLabel "Consistent 2-space indentation" = 1 := by
  unfold weightOfLabel
  rw [if_pos rfl]

theorem weightOfLabel_semantic :
    weightOfLabel "Semantic HTML5 elements" = 1 / 2 := by
  unfold weightOfLabel
  rw [if_neg (by decide), if_neg (by decide), if_pos rfl]

theorem weightOfLabel_custom_css :
    weightOfLabel "Custom CSS with media queries" = 1 := by
  unfold weightOfLabel
  rw [if_neg (by decide), if_neg (by decide), if_neg (by decide),
    if_neg (by decide), if_pos rfl]

theorem weightOfLabel_kebab :
    weightOfLabel "Consistent kebab-case naming" = 1 / 2 := by
  unfold weightOfLabel
  rw [if_neg (by decide), if_neg (by decide), if_neg (by decide),
    if_neg (by decide), if_neg (by decide), if_pos rfl]

theorem weightOfLabel_doctype :
    weightOfLabel "Proper HTML5 structure with meta viewport" = 1 := by
  unfold weightOfLabel
  rw [if_neg (by decide), if_neg (by decide), if_neg (by decide),
    if_neg (by decide), if_neg (by decide), if_neg (by decide), if_pos rfl]

theorem weightOfLabel_cdn :
    weightOfLabel "CDN links for libraries" = 1 := by
  unfold weightOfLabel
  rw [if_neg (by decide), if_neg (by decide), if_neg (by decide),
    if_neg (by decide), if_neg (by decide), if_neg (by decide),
    if_neg (by decide), if_pos rfl]

theorem weightOfLabel_grid :
    weightOfLabel "Complex nested grid structure" = 1 := by
  unfold weightOfLabel
  rw [if_neg (by decide), if_neg (by decide), if_neg (by decide),
    if_neg (by decide), if_neg (by decide), if_neg (by decide),
    if_neg (by decide), if_neg (by decide), if_pos rfl]

theorem weightOfLabel_accessibility :
    weightOfLabel "Accessibility and encoding attributes" = 1 / 2 := by
  unfold weightOfLabel
  rw [if_neg (by decide), if_neg (by decide), if_neg (by decide),
    if_neg (by decide), if_neg (by decide), if_neg (by decide),
    if_neg (by decide), if_neg (by decide), if_neg (by decide), if_pos rfl]

/-- Every check's label carries exactly that check's weight. -/
theorem weightOfLabel_aiChecks (code : String) :
    ∀ c ∈ aiChecks code, weightOfLabel c.2.2 = c.2.1 := by
  intro c hc
  simp only [aiChecks, List.mem_cons, List.not_mem_nil, or_false] at hc
  rcases hc with h | h | h | h | h | h | h | h | h | h <;> subst h
  · exact weightOfLabel_two_space
  · exact weightOfLabel_comments _
  · exact weightOfLabel_semantic
  · exact weightOfLabel_bootstrap _
  · exact weightOfLabel_custom_css
  · exact weightOfLabel_kebab
  · exact weightOfLabel_doctype
  · exact weightOfLabel_cdn
  · exact weightOfLabel_grid
  · exact weightOfLabel_accessibility

/-- C7: for every input text, `check_ai_indicators` returns exactly the
sum of the weights of the triggered checks, clamped (not scaled) at 10,
together with the labels of the triggered checks in the fixed evaluation
order of the ten checks. -/
theorem C7_indicator_scorer_contract (code : String) :
    check_ai_indicators code =
      (min (triggeredWeightSum code) 10, triggeredLabels code) := by
  unfold check_ai_indicators triggeredWeightSum triggeredLabels
  rw [aiFold]
  simp

/-- C9: the two outputs of the indicator scorer never disagree: the
returned score is the clamp at 10 of the sum of the fixed weights that the
returned labels stand for. -/
theorem C9_score_matches_labels (code : String) :
    (check_ai_indicators code).1 =
      min (((check_ai_indicators code).2).map weightOfLabel).sum 10 := by
  rw [check_ai_eq]
  simp only
  have hmap : (triggeredLabels code).map weightOfLabel =
      ((aiChecks code).filter (fun c => c.1)).map (fun c => c.2.1) := by
    unfold triggeredLabels
    rw [List.map_map]
    refine List.map_congr_left ?_
    intro c hc
    exact weightOfLabel_aiChecks code c (List.mem_of_mem_filter hc)
  rw [hmap]
  rfl

/-- Each of the ten weights is nonnegative. -/
theorem aiChecks_weight_nonneg (code : String) :
    ∀ c ∈ aiChecks code, 0 ≤ c.2.1 := by
  intro c hc
  simp only [aiChecks, List.mem_cons, List.not_mem_nil, or_false] at hc
  rcases hc with h | h | h | h | h | h | h | h | h | h <;> subst h <;> norm_num

/-- The returned AI score always lies in `[0, 10]`. -/
theorem ai_score_bounds (code : String) :
    0 ≤ (check_ai_indicators code).1 ∧ (check_ai_indicators code).1 ≤ 10 := by
  rw [check_ai_eq]
  simp only
  constructor
  · refine le_min ?_ (by norm_num)
    unfold triggeredWeightSum
    refine List.sum_nonneg ?_
    intro x hx
    simp only [List.mem_map] at hx
    obtain ⟨c, hc, hcx⟩ := hx
    subst hcx
    exact aiChecks_weight_nonneg code c (List.mem_of_mem_filter hc)
  · exact min_le_right _ _

/-- The structure score is the sum of eight 0/1 terms. -/
theorem structure_score_le (r : StructureFacts) : structure_score r ≤ 8 := by
  unfold structure_score
  simp only [List.map_cons, List.map_nil, List.sum_cons, List.sum_nil,
    add_zero]
  have h : ∀ b : Bool, (if b = true then (1 : ℕ) else 0) ≤ 1 := by
    intro b; cases b <;> simp
  have h1 := h r.has_doctype
  have h2 := h r.has_bootstrap_css
  have h3 := h r.has_bootstrap_js
  have h4 := h r.has_container
  have h5 := h (decide (2 ≤ r.row_count))
  have h6 := h r.has_custom_css
  have h7 := h r.has_media_query
  have h8 := h (decide (6 ≤ r.col_elements))
  omega

/-- The ten weights listed in `aiChecks` (independent of the input). -/
theorem aiChecks_weights (code : String) :
    (aiChecks code).map (fun c => c.2.1) =
      [1, 3/2, 1/2, 1, 1, 1/2, 1, 1, 1, 1/2] := by
  simp only [aiChecks, List.map_cons, List.map_nil]

/-- When every check triggers, the raw weighted sum is 9 and the returned
score is 9 (the clamp at 10 does not engage). -/
theorem all_triggered_score (code : String)
    (h : ∀ c ∈ aiChecks code, c.1 = true) :
    triggeredWeightSum code = 9 ∧ (check_ai_indicators code).1 = 9 := by
  have hfilter : (aiChecks code).filter (fun c => c.1) = aiChecks code :=
    List.filter_eq_self.mpr h
  have hsum : triggeredWeightSum code = 9 := by
    unfold triggeredWeightSum
    rw [hfilter, aiChecks_weights]
    norm_num
  refine ⟨hsum, ?_⟩
  rw [check_ai_eq]
  simp only [hsum]
  norm_num

/-- `allTenInput` triggers all ten checks. -/
theorem allTenInput_triggers_all :
    ∀ c ∈ aiChecks allTenInput, c.1 = true := by decide

/-- C6 (counterexample): an input on which all ten indicator checks
trigger yields the raw weighted sum 9 — visible unclamped in the returned
score — and not 9.5 as claimed. -/
theorem C6_counterexample :
    (∀ c ∈ aiChecks allTenInput, c.1 = true) ∧
    (check_ai_indicators allTenInput).1 = 9 ∧ (9 : ℚ) ≠ 19 / 2 := by
  refine ⟨allTenInput_triggers_all, ?_, by norm_num⟩
  exact (all_triggered_score allTenInput allTenInput_triggers_all).2

/-- C6 (amended): the structure score is an integer in `[0, 8]` and the AI
score lies in `[0, 10]`; an input triggering all ten indicator checks
exists and yields the raw weighted sum 9.0, which does not exceed the cap
of 10. -/
theorem C6_score_bounds :
    (∀ r : StructureFacts, structure_score r ≤ 8) ∧
    (∀ code, 0 ≤ (check_ai_indicators code).1 ∧
      (check_ai_indicators code).1 ≤ 10) ∧
    (∀ code, (∀ c ∈ aiChecks code, c.1 = true) →
      triggeredWeightSum code = 9 ∧ triggeredWeightSum code ≤ 10 ∧
        (check_ai_indicators code).1 = 9) ∧
    (∀ c ∈ aiChecks allTenInput, c.1 = true) := by
  refine ⟨structure_score_le, ai_score_bounds, ?_, allTenInput_triggers_all⟩
  intro code h
  obtain ⟨h1, h2⟩ := all_triggered_score code h
  exact ⟨h1, by rw [h1]; norm_num, h2⟩

/-- C6 (witness): the amended statement applied at the concrete all-ten
input. -/
theorem C6_score_bounds_witness :
    triggeredWeightSum allTenInput = 9 ∧
    (check_ai_indicators allTenInput).1 = 9 ∧
    structure_score ⟨true, true, true, true, 4, true, true, 9⟩ = 8 := by
  have h := C6_score_bounds
  obtain ⟨hs, _, hall, htrig⟩ := h
  obtain ⟨h1, _, h3⟩ := hall allTenInput htrig
  exact ⟨h1, h3, by decide⟩

/-- C8: the three core functions are total on all text inputs and yield
well-formed values: the similarity is a ratio in `[0, 1]`, the structure
analyzer produces a facts record (its parser never raises, so the `None`
branch is not taken), and the indicator scorer's score is well-defined and
nonnegative. -/
theorem C8_core_functions_total (t1 t2 code : String) :
    0 ≤ calculate_similarity t1 t2 ∧ calculate_similarity t1 t2 ≤ 1 ∧
    (analyze_code_structure code).isSome = true ∧
    0 ≤ (check_ai_indicators code).1 :=
  ⟨(seqRatio_bounds _ _).1, (seqRatio_bounds _ _).2, rfl,
    (ai_score_bounds code).1⟩

/-- Positional characterization of the `^\s{2}` multiline search. -/
theorem twoSpaceAux_iff :
    ∀ (l : List Char) (flag : Bool),
      twoSpaceAux flag l = true ↔
        ∃ i, ((i = 0 ∧ flag = true) ∨ (1 ≤ i ∧ l.get? (i - 1) = some '\n')) ∧
          ∃ c d, l.get? i = some c ∧ l.get? (i + 1) = some d ∧
            isPySpace c = true ∧ isPySpace d = true := by
  intro l
  induction l with
  | nil =>
    intro flag
    simp [twoSpaceAux]
  | cons a t ih =>
    intro flag
    rw [show twoSpaceAux flag (a :: t) =
        ((flag && isPySpace a && headSpace t) ||
          twoSpaceAux (a = '\n') t) from rfl, Bool.or_eq_true, ih]
    constructor
    · rintro (hfst | ⟨i, hstart, c, d, h1, h2, hc, hd⟩)
      · simp only [Bool.and_eq_true] at hfst
        obtain ⟨⟨hflag, ha⟩, hmatch⟩ := hfst
        cases t with
        | nil => simp [headSpace] at hmatch
        | cons e t' =>
          exact ⟨0, Or.inl ⟨rfl, hflag⟩, a, e, rfl, rfl, ha,
            by simpa [headSpace] using hmatch⟩
      · refine ⟨i + 1, ?_, c, d, by simpa using h1, by simpa using h2, hc, hd⟩
        right
        refine ⟨by omega, ?_⟩
        rcases hstart with ⟨hi0, hflag⟩ | ⟨hi1, hnl⟩
        · subst hi0
          simp only [Nat.add_sub_cancel, List.get?_cons_zero]
          simp only [decide_eq_true_eq] at hflag
          rw [hflag]
        · have : i + 1 - 1 = (i - 1) + 1 := by omega
          rw [this, List.get?_cons_succ]
          exact hnl
    · rintro ⟨i, hstart, c, d, h1, h2, hc, hd⟩
      cases i with
      | zero =>
        left
        rcases hstart with ⟨_, hflag⟩ | ⟨h1le, _⟩
        · simp only [List.get?_cons_zero, Option.some.injEq] at h1
          subst h1
          cases t with
          | nil => simp at h2
          | cons e t' =>
            simp only [List.get?_cons_succ, List.get?_cons_zero,
              Option.some.injEq] at h2
            subst h2
            simp [headSpace, hflag, hc, hd]
        · omega
      | succ i' =>
        right
        refine ⟨i', ?_, c, d, by simpa using h1, by simpa using h2, hc, hd⟩
        rcases hstart with ⟨hi0, _⟩ | ⟨_, hnl⟩
        · exact absurd hi0 (by omega)
        · cases i' with
          | zero =>
            left
            simp only [Nat.add_sub_cancel, List.get?_cons_zero,
              Option.some.injEq] at hnl
            simp [hnl]
          | succ i'' =>
            right
            refine ⟨by omega, ?_⟩
            have : i'' + 1 + 1 - 1 = i'' + 1 := by omega
            rw [this, List.get?_cons_succ] at hnl
            simpa using hnl

/-- C10: the first indicator ("Consistent 2-space indentation") triggers
exactly when two consecutive whitespace characters of any kind stand at a
line-start position (the start of the text or just after a newline) — in
particular a tab-indented input with no two-space sequence still triggers
it. -/
theorem C10_two_space_indicator (code : String) :
    (twoSpaceCheck code = true ↔
      ∃ i, (i = 0 ∨ code.data.get? (i - 1) = some '\n') ∧
        ∃ c d, code.data.get? i = some c ∧ code.data.get? (i + 1) = some d ∧
          isPySpace c = true ∧ isPySpace d = true) ∧
    twoSpaceCheck "\t\tA" = true ∧
    hasSub "  ".data "\t\tA".data = false := by
  refine ⟨?_, by decide, by decide⟩
  unfold twoSpaceCheck
  rw [twoSpaceAux_iff]
  constructor
  · rintro ⟨i, hstart, hrest⟩
    refine ⟨i, ?_, hrest⟩
    rcases hstart with ⟨h0, _⟩ | ⟨_, hnl⟩
    · exact Or.inl h0
    · exact Or.inr hnl
  · rintro ⟨i, hstart, hrest⟩
    refine ⟨i, ?_, hrest⟩
    rcases hstart with h0 | hnl
    · exact Or.inl ⟨h0, rfl⟩
    · by_cases h0 : i = 0
      · exact Or.inl ⟨h0, rfl⟩
      · exact Or.inr ⟨by omega, hnl⟩

/-- Token-level reading of the BeautifulSoup class matcher. -/
theorem bsClassMatch_iff (needle : String) (attr : Option String) :
    bsClassMatch needle attr = true ↔
      ∃ s, attr = some s ∧
        ∃ tok ∈ splitWs s.data, hasSub needle.data tok = true := by
  cases attr with
  | none => simp [bsClassMatch]
  | some s => simp [bsClassMatch, List.any_eq_true]

/-- C2 (counterexample): a `span` carrying `container`, `row` and `col-`
class tokens is ignored by the analyzer, which looks at `div` elements
only, while the spec's any-element reading matches it. -/
theorem C2_counterexample :
    (analyze_code_structure spanInput).map StructureFacts.has_container =
      some false ∧
    (analyze_code_structure spanInput).map StructureFacts.row_count =
      some 0 ∧
    (analyze_code_structure spanInput).map StructureFacts.col_elements =
      some 0 ∧
    specAnyElemContainer spanInput = true ∧
    specAnyElemCount "row" spanInput = 1 ∧
    specAnyElemCount "col-" spanInput = 1 := by
  refine ⟨by decide, by decide, by decide, by decide, by decide, by decide⟩

/-- C2 (amended): restricted to `div` elements, the analyzer's facts are
exactly the token-containment counts: `has_container` holds iff some *div*
carries a class token containing `"container"`, and `row_count`
(`col_elements`) is the number of *div* elements whose class attribute
contains `"row"` (`"col-"`). -/
theorem C2_div_class_facts (code : String) :
    ∃ r, analyze_code_structure code = some r ∧
      (r.has_container = true ↔
        ∃ e ∈ scanTags code.data, e.tag = "div" ∧
          ∃ s, e.classAttr = some s ∧
            ∃ tok ∈ splitWs s.data, hasSub "container".data tok = true) ∧
      r.row_count = ((scanTags code.data).filter
        (fun e => e.tag == "div" && bsClassMatch "row" e.classAttr)).length ∧
      r.col_elements = ((scanTags code.data).filter
        (fun e => e.tag == "div" && bsClassMatch "col-" e.classAttr)).length := by
  refine ⟨_, rfl, ?_, rfl, rfl⟩
  show (List.find? (divClassPred "container") (scanTags code.data)).isSome =
    true ↔ _
  rw [List.find?_isSome]
  constructor
  · rintro ⟨e, hmem, hpred⟩
    unfold divClassPred at hpred
    simp only [Bool.and_eq_true, beq_iff_eq] at hpred
    obtain ⟨htag, hcls⟩ := hpred
    rw [bsClassMatch_iff] at hcls
    obtain ⟨s, hs, tok, htok, hsub⟩ := hcls
    exact ⟨e, hmem, htag, s, hs, tok, htok, hsub⟩
  · rintro ⟨e, hmem, htag, s, hs, tok, htok, hsub⟩
    refine ⟨e, hmem, ?_⟩
    unfold divClassPred
    simp only [Bool.and_eq_true, beq_iff_eq]
    exact ⟨htag, (bsClassMatch_iff _ _).mpr ⟨s, hs, tok, htok, hsub⟩⟩

/-- C5 (counterexample): garbage input does not produce the `None`
(ParseFailure) sentinel; the lenient parser succeeds and every fact comes
back negative. -/
theorem C5_counterexample :
    analyze_code_structure garbageInput =
      some ⟨false, false, false, false, 0, false, false, 0⟩ ∧
    analyze_code_structure garbageInput ≠ none := by
  refine ⟨by decide, by decide⟩

/-- C5 (amended): the analyzer never crashes and never returns the
ParseFailure sentinel: parsing is lenient and total, so every input —
including binary garbage — yields a normal facts record; on garbage with
no markup all facts are negative.  The `None` sentinel is reserved for a
parser exception, which does not occur. -/
theorem C5_analyzer_total (code : String) :
    analyze_code_structure code ≠ none ∧
    analyze_code_structure garbageInput =
      some ⟨false, false, false, false, 0, false, false, 0⟩ :=
  ⟨by unfold analyze_code_structure; simp, by decide⟩

theorem charAt_eq {s : List Char} {i : ℕ} {c : Char}
    (h : s.get? i = some c) : charAt s i = c := by
  unfold charAt
  rw [List.getD_eq_getElem?_getD]
  rw [← List.get?_eq_getElem?]
  rw [h]
  rfl

/-- The guard of `chainLen` is symmetric in `i` and `j`. -/
theorem chainLen_ok_symm (s : List Char) (i j : ℕ) :
    ((s.get? i).isSome ∧ s.get? i = s.get? j ∧
      isPopular s (charAt s j) = false) ↔
    ((s.get? j).isSome ∧ s.get? j = s.get? i ∧
      isPopular s (charAt s i) = false) := by
  constructor
  · rintro ⟨h1, h2, h3⟩
    obtain ⟨c, hc⟩ := Option.isSome_iff_exists.mp h1
    have hcj : s.get? j = some c := h2 ▸ hc
    refine ⟨by rw [hcj]; rfl, h2.symm, ?_⟩
    rwa [charAt_eq hc, ← charAt_eq hcj]
  · rintro ⟨h1, h2, h3⟩
    obtain ⟨c, hc⟩ := Option.isSome_iff_exists.mp h1
    have hci : s.get? i = some c := h2 ▸ hc
    refine ⟨by rw [hci]; rfl, h2.symm, ?_⟩
    rwa [charAt_eq hc, ← charAt_eq hci]

theorem chainLen_le_left (s : List Char) :
    ∀ i j, chainLen s i j ≤ i + 1 := by
  intro i
  induction i with
  | zero =>
    intro j
    rw [chainLen]
    split <;> omega
  | succ i ih =>
    intro j
    cases j with
    | zero => rw [chainLen]; split <;> omega
    | succ j =>
      rw [chainLen]
      split
      · have := ih j
        omega
      · omega

theorem chainLen_le_right (s : List Char) :
    ∀ i j, chainLen s i j ≤ j + 1 := by
  intro i
  induction i with
  | zero =>
    intro j
    rw [chainLen]
    split <;> omega
  | succ i ih =>
    intro j
    cases j with
    | zero => rw [chainLen]; split <;> omega
    | succ j =>
      rw [chainLen]
      split
      · have := ih j
        omega
      · omega

theorem chainLen_symm (s : List Char) :
    ∀ i j, chainLen s i j = chainLen s j i := by
  intro i
  induction i with
  | zero =>
    intro j
    cases j with
    | zero => rfl
    | succ j =>
      rw [chainLen, chainLen]
      split
      · rename_i h
        rw [if_pos ((chainLen_ok_symm s 0 (j + 1)).mp h)]
      · rename_i h
        rw [if_neg (fun hs => h ((chainLen_ok_symm s (j + 1) 0).mp hs))]
  | succ i ih =>
    intro j
    cases j with
    | zero =>
      rw [chainLen, chainLen]
      split
      · rename_i h
        rw [if_pos ((chainLen_ok_symm s (i + 1) 0).mp h)]
      · rename_i h
        rw [if_neg (fun hs => h ((chainLen_ok_symm s 0 (i + 1)).mp hs))]
    | succ j =>
      rw [chainLen, chainLen]
      split
      · rename_i h
        rw [if_pos ((chainLen_ok_symm s (i + 1) (j + 1)).mp h), ih j]
      · rename_i h
        rw [if_neg (fun hs => h ((chainLen_ok_symm s (j + 1) (i + 1)).mp hs))]

/-- A chain ending at `(i, j)` is no longer than the diagonal chain ending
at `(i, i)`. -/
theorem chainLen_le_diag (s : List Char) :
    ∀ i j, chainLen s i j ≤ chainLen s i i := by
  intro i
  induction i with
  | zero =>
    intro j
    rw [chainLen]
    split
    · rename_i h
      obtain ⟨h1, h2, h3⟩ := h
      obtain ⟨c, hc⟩ := Option.isSome_iff_exists.mp h1
      have hcj : s.get? j = some c := h2 ▸ hc
      have hok : (s.get? 0).isSome ∧ s.get? 0 = s.get? 0 ∧
          isPopular s (charAt s 0) = false := by
        refine ⟨h1, rfl, ?_⟩
        rwa [charAt_eq hc, ← charAt_eq hcj]
      rw [chainLen, if_pos hok]
    · omega
  | succ i ih =>
    intro j
    cases j with
    | zero =>
      rw [chainLen]
      split
      · rename_i h
        obtain ⟨h1, h2, h3⟩ := h
        obtain ⟨c, hc⟩ := Option.isSome_iff_exists.mp h1
        have hcj : s.get? 0 = some c := h2 ▸ hc
        have hok : (s.get? (i + 1)).isSome ∧
            s.get? (i + 1) = s.get? (i + 1) ∧
            isPopular s (charAt s (i + 1)) = false := by
          refine ⟨h1, rfl, ?_⟩
          rwa [charAt_eq hc, ← charAt_eq hcj]
        rw [chainLen, if_pos hok]
        have := chainLen_le_left s i i
        omega
      · omega
    | succ j =>
      rw [chainLen]
      split
      · rename_i h
        obtain ⟨h1, h2, h3⟩ := h
        obtain ⟨c, hc⟩ := Option.isSome_iff_exists.mp h1
        have hcj : s.get? (j + 1) = some c := h2 ▸ hc
        have hok : (s.get? (i + 1)).isSome ∧
            s.get? (i + 1) = s.get? (i + 1) ∧
            isPopular s (charAt s (i + 1)) = false := by
          refine ⟨h1, rfl, ?_⟩
          rwa [charAt_eq hc, ← charAt_eq hcj]
        rw [chainLen, if_pos hok]
        have := ih j
        omega
      · omega

/-- The `j2len` row built by `rowStep` is the map of `rowK` over the
processed indices. -/
theorem rowStep_fst (prev : List (ℕ × ℕ)) (i : ℕ) :
    ∀ (js : List ℕ) (acc : List (ℕ × ℕ)) (best : ℕ × ℕ × ℕ),
      (js.foldl (rowStepF prev i) (acc, best)).1 =
        acc ++ js.map (fun j => (j, rowK prev j)) := by
  intro js
  induction js with
  | nil => intro acc best; simp
  | cons j js ih =>
    intro acc best
    simp only [List.foldl_cons, List.map_cons]
    rw [show rowStepF prev i (acc, best) j =
      (acc ++ [(j, rowK prev j)],
        if best.2.2 < rowK prev j then
          (i + 1 - rowK prev j, j + 1 - rowK prev j, rowK prev j)
        else best) from rfl]
    rw [ih]
    simp

/-- The best block built by `rowStep` only depends on the best component. -/
theorem rowStep_snd (prev : List (ℕ × ℕ)) (i : ℕ) :
    ∀ (js : List ℕ) (acc : List (ℕ × ℕ)) (best : ℕ × ℕ × ℕ),
      (js.foldl (rowStepF prev i) (acc, best)).2 =
        js.foldl (fun b j =>
          if b.2.2 < rowK prev j then
            (i + 1 - rowK prev j, j + 1 - rowK prev j, rowK prev j)
          else b) best := by
  intro js
  induction js with
  | nil => intro acc best; rfl
  | cons j js ih =>
    intro acc best
    simp only [List.foldl_cons]
    rw [show rowStepF prev i (acc, best) j =
      (acc ++ [(j, rowK prev j)],
        if best.2.2 < rowK prev j then
          (i + 1 - rowK prev j, j + 1 - rowK prev j, rowK prev j)
        else best) from rfl]
    rw [ih]

/-- Association-list lookup over a mapped index list. -/
theorem alGet_map (g : ℕ → ℕ) :
    ∀ (js : List ℕ) (k : ℕ),
      alGet (js.map (fun j => (j, g j))) k = if k ∈ js then g k else 0 := by
  intro js
  induction js with
  | nil => intro k; simp [alGet]
  | cons j js ih =>
    intro k
    by_cases hk : j = k
    · subst hk
      simp [alGet, List.find?]
    · rw [show (j :: js).map (fun j => (j, g j)) =
        (j, g j) :: js.map (fun j => (j, g j)) from rfl]
      unfold alGet
      rw [List.find?_cons_of_neg _ (by simp [hk])]
      rw [← alGet]
      rw [ih k]
      simp [Ne.symm hk]

/-- The best-update fold ignores indices whose chain does not beat the
current best. -/
theorem bestFold_no_update (prev : List (ℕ × ℕ)) (i : ℕ) :
    ∀ (l : List ℕ) (b : ℕ × ℕ × ℕ),
      (∀ j ∈ l, rowK prev j ≤ b.2.2) →
      l.foldl (fun b j =>
        if b.2.2 < rowK prev j then
          (i + 1 - rowK prev j, j + 1 - rowK prev j, rowK prev j)
        else b) b = b := by
  intro l
  induction l with
  | nil => intro b _; rfl
  | cons j l ih =>
    intro b h
    have hj := h j (by simp)
    simp only [List.foldl_cons]
    rw [if_neg (by omega)]
    exact ih b (fun x hx => h x (by simp [hx]))

/-- Membership in the occurrence list. -/
theorem occ_mem (b : List Char) (c : Char) (j : ℕ) :
    j ∈ occ b c ↔ j < b.length ∧ b.get? j = some c := by
  unfold occ
  rw [List.mem_filter, List.mem_range]
  simp

theorem chainLen_eq_zero {s : List Char} {m k : ℕ}
    (h : ¬((s.get? m).isSome ∧ s.get? m = s.get? k ∧
      isPopular s (charAt s k) = false)) :
    chainLen s m k = 0 := by
  match m, k with
  | 0, k => rw [chainLen, if_neg h]
  | m + 1, 0 => rw [chainLen, if_neg h]
  | m + 1, k + 1 => rw [chainLen, if_neg h]

theorem rowK_chain {s : List Char} {m : ℕ} {prev : List (ℕ × ℕ)}
    (hA : ∀ k, alGet prev k =
      match m with | 0 => 0 | m' + 1 => chainLen s m' k)
    {j : ℕ} {c : Char} (hm : s.get? m = some c) (hj : s.get? j = some c)
    (hpop : isPopular s c = false) :
    rowK prev j = chainLen s m j := by
  have hok : (s.get? m).isSome ∧ s.get? m = s.get? j ∧
      isPopular s (charAt s j) = false :=
    ⟨by rw [hm]; rfl, by rw [hm, hj], by rw [charAt_eq hj]; exact hpop⟩
  unfold rowK
  cases j with
  | zero =>
    rw [if_pos rfl]
    cases m with
    | zero => rw [chainLen, if_pos hok]
    | succ m' => rw [chainLen, if_pos hok]
  | succ j' =>
    rw [if_neg (by omega)]
    simp only [Nat.add_sub_cancel]
    cases m with
    | zero =>
      rw [hA j', chainLen, if_pos hok]
    | succ m' =>
      rw [hA j', chainLen, if_pos hok]

theorem rowJs_self {s : List Char} {m : ℕ} {c : Char}
    (hc : s.get? m = some c) :
    rowJs s s 0 s.length m = b2jGet s c := by
  unfold rowJs
  rw [hc]
  apply List.filter_eq_self.mpr
  intro j hj
  have hjl : j < s.length := by
    dsimp only at hj
    unfold b2jGet at hj
    by_cases hp : isPopular s c = true
    · rw [if_pos hp] at hj
      exact absurd hj (List.not_mem_nil j)
    · rw [if_neg hp] at hj
      exact ((occ_mem s c j).mp hj).1
  simp [hjl]

theorem occ_split {s : List Char} {m : ℕ} {c : Char} (hm : m < s.length)
    (hc : s.get? m = some c) :
    occ s c =
      ((List.range' 0 m).filter (fun j => s.get? j == some c)) ++
      m :: ((List.range' (m + 1) (s.length - (m + 1))).filter
        (fun j => s.get? j == some c)) := by
  unfold occ
  rw [List.range_eq_range']
  have h1 : List.range' 0 s.length =
      List.range' 0 m ++ List.range' m (s.length - m) := by
    have := List.range'_append 0 m (s.length - m) 1
    simp only [one_mul, zero_add] at this
    rw [show s.length - m + m = s.length from by omega] at this
    exact this.symm
  have h2 : List.range' m (s.length - m) =
      m :: List.range' (m + 1) (s.length - (m + 1)) := by
    have : s.length - m = (s.length - (m + 1)) + 1 := by omega
    rw [this, List.range'_succ]
  rw [h1, List.filter_append, h2]
  rw [List.filter_cons_of_pos]
  have hc' := hc
  rw [List.get?_eq_getElem?] at hc'
  simp [hc']

/-- On `(s, s)` the scan's best block always sits on the diagonal and fits
in the string. -/
theorem flmScan_self (s : List Char) :
    ∃ d bs, flmScan s s 0 s.length 0 s.length = (d, d, bs) ∧
      d + bs ≤ s.length := by
  unfold flmScan
  suffices h : ∀ (len m : ℕ) (prev : List (ℕ × ℕ)) (bi bs : ℕ),
      m + len = s.length →
      (∀ k, alGet prev k =
        match m with | 0 => 0 | m' + 1 => chainLen s m' k) →
      bi + bs ≤ m →
      (∀ i', i' < m → chainLen s i' i' ≤ bs) →
      ∃ d bs', ((List.range' m len).foldl
          (fun st i => rowStep st.1 st.2 i (rowJs s s 0 s.length i))
          (prev, (bi, bi, bs))).2 = (d, d, bs') ∧ d + bs' ≤ s.length by
    have h0 := h s.length 0 [] 0 0 (by omega) (fun k => by simp [alGet])
      (by omega) (fun i' hi' => by omega)
    simpa using h0
  intro len
  induction len with
  | zero =>
    intro m prev bi bs hmn hA hC hD
    exact ⟨bi, bs, rfl, by omega⟩
  | succ len ih =>
    intro m prev bi bs hmn hA hC hD
    rw [List.range'_succ, List.foldl_cons]
    have hmlt : m < s.length := by omega
    obtain ⟨c, hc⟩ : ∃ c, s.get? m = some c :=
      ⟨s.get ⟨m, hmlt⟩, List.get?_eq_get hmlt⟩
    have hjs : rowJs s s 0 s.length m = b2jGet s c := rowJs_self hc
    by_cases hpop : isPopular s c = true
    · -- the character was dropped by autojunk: empty row, no update
      have hb2j : b2jGet s c = [] := by unfold b2jGet; rw [if_pos hpop]
      have hrow : rowStep prev (bi, bi, bs) m (rowJs s s 0 s.length m) =
          ([], (bi, bi, bs)) := by
        rw [hjs, hb2j]; rfl
      rw [hrow]
      have hzero : ∀ k, chainLen s m k = 0 := by
        intro k
        apply chainLen_eq_zero
        rintro ⟨h1, h2, h3⟩
        have hck : s.get? k = some c := h2 ▸ hc
        rw [charAt_eq hck] at h3
        rw [h3] at hpop
        exact Bool.false_ne_true hpop
      refine ih (m + 1) [] bi bs (by omega) ?_ (by omega) ?_
      · intro k
        simp [alGet, hzero]
      · intro i' hi'
        rcases Nat.lt_succ_iff_lt_or_eq.mp hi' with h | h
        · exact hD i' h
        · subst h
          rw [hzero]
          omega
    · -- the character survives: the row updates along the diagonal
      have hb2j : b2jGet s c = occ s c := by unfold b2jGet; rw [if_neg hpop]
      have hpopf : isPopular s c = false := by
        cases hp2 : isPopular s c
        · rfl
        · exact absurd hp2 hpop
      set A := (List.range' 0 m).filter (fun j => s.get? j == some c)
        with hA2
      set B := (List.range' (m + 1) (s.length - (m + 1))).filter
        (fun j => s.get? j == some c) with hB2
      have hsplit : occ s c = A ++ m :: B := occ_split hmlt hc
      have hmemocc : ∀ j ∈ occ s c, s.get? j = some c :=
        fun j hj => ((occ_mem s c j).mp hj).2
      have hK : ∀ j, s.get? j = some c → rowK prev j = chainLen s m j :=
        fun j hj => rowK_chain hA hc hj hpopf
      have hkm : rowK prev m = chainLen s m m := hK m hc
      have hmemA : ∀ j ∈ A, j < m ∧ s.get? j = some c := by
        intro j hj
        rw [hA2, List.mem_filter, List.mem_range'] at hj
        obtain ⟨⟨_, hjm⟩, hjc⟩ := hj
        refine ⟨by omega, by simpa using hjc⟩
      have hmemB : ∀ j ∈ B, s.get? j = some c := by
        intro j hj
        rw [hB2, List.mem_filter] at hj
        simpa using hj.2
      have hfst : (rowStep prev (bi, bi, bs) m (rowJs s s 0 s.length m)).1 =
          (occ s c).map (fun j => (j, rowK prev j)) := by
        rw [hjs, hb2j]
        unfold rowStep
        rw [rowStep_fst]
        simp
      have hAnew : ∀ k,
          alGet ((occ s c).map (fun j => (j, rowK prev j))) k =
            chainLen s m k := by
        intro k
        rw [alGet_map]
        by_cases hk : k ∈ occ s c
        · rw [if_pos hk]
          exact hK k (hmemocc k hk)
        · rw [if_neg hk]
          symm
          apply chainLen_eq_zero
          rintro ⟨h1, h2, h3⟩
          have hck : s.get? k = some c := h2 ▸ hc
          obtain ⟨hkl, _⟩ := List.get?_eq_some.mp hck
          exact hk ((occ_mem s c k).mpr ⟨hkl, hck⟩)
      have hsnd : (rowStep prev (bi, bi, bs) m (rowJs s s 0 s.length m)).2 =
          (A ++ m :: B).foldl (fun b j =>
            if b.2.2 < rowK prev j then
              (m + 1 - rowK prev j, j + 1 - rowK prev j, rowK prev j)
            else b) (bi, bi, bs) := by
        rw [hjs, hb2j, hsplit]
        unfold rowStep
        rw [rowStep_snd]
      have hfoldA : A.foldl (fun b j =>
          if b.2.2 < rowK prev j then
            (m + 1 - rowK prev j, j + 1 - rowK prev j, rowK prev j)
          else b) (bi, bi, bs) = (bi, bi, bs) := by
        apply bestFold_no_update
        intro j hj
        obtain ⟨hjm, hjc⟩ := hmemA j hj
        rw [hK j hjc, chainLen_symm]
        calc chainLen s j m ≤ chainLen s j j := chainLen_le_diag s j m
        _ ≤ bs := hD j hjm
      have hklem := chainLen_le_left s m m
      by_cases hup : bs < rowK prev m
      · have hfoldB : B.foldl (fun b j =>
            if b.2.2 < rowK prev j then
              (m + 1 - rowK prev j, j + 1 - rowK prev j, rowK prev j)
            else b)
            (m + 1 - rowK prev m, m + 1 - rowK prev m, rowK prev m) =
            (m + 1 - rowK prev m, m + 1 - rowK prev m, rowK prev m) := by
          apply bestFold_no_update
          intro j hj
          rw [hK j (hmemB j hj)]
          calc chainLen s m j ≤ chainLen s m m := chainLen_le_diag s m j
          _ = rowK prev m := hkm.symm
        have hsndval :
            (rowStep prev (bi, bi, bs) m (rowJs s s 0 s.length m)).2 =
            (m + 1 - rowK prev m, m + 1 - rowK prev m, rowK prev m) := by
          rw [hsnd, List.foldl_append, hfoldA, List.foldl_cons,
            if_pos hup, hfoldB]
        have hpair : rowStep prev (bi, bi, bs) m (rowJs s s 0 s.length m) =
            ((occ s c).map (fun j => (j, rowK prev j)),
              (m + 1 - rowK prev m, m + 1 - rowK prev m, rowK prev m)) :=
          Prod.ext_iff.mpr ⟨hfst, hsndval⟩
        rw [hpair]
        refine ih (m + 1) _ (m + 1 - rowK prev m) (rowK prev m)
          (by omega) (fun k => hAnew k) (by omega) ?_
        intro i' hi'
        rcases Nat.lt_succ_iff_lt_or_eq.mp hi' with h | h
        · calc chainLen s i' i' ≤ bs := hD i' h
          _ ≤ rowK prev m := by omega
        · subst h
          omega
      · have hfoldB : B.foldl (fun b j =>
            if b.2.2 < rowK prev j then
              (m + 1 - rowK prev j, j + 1 - rowK prev j, rowK prev j)
            else b) (bi, bi, bs) = (bi, bi, bs) := by
          apply bestFold_no_update
          intro j hj
          rw [hK j (hmemB j hj)]
          calc chainLen s m j ≤ chainLen s m m := chainLen_le_diag s m j
          _ = rowK prev m := hkm.symm
          _ ≤ bs := by omega
        have hsndval :
            (rowStep prev (bi, bi, bs) m (rowJs s s 0 s.length m)).2 =
            (bi, bi, bs) := by
          rw [hsnd, List.foldl_append, hfoldA, List.foldl_cons,
            if_neg hup, hfoldB]
        have hpair : rowStep prev (bi, bi, bs) m (rowJs s s 0 s.length m) =
            ((occ s c).map (fun j => (j, rowK prev j)), (bi, bi, bs)) :=
          Prod.ext_iff.mpr ⟨hfst, hsndval⟩
        rw [hpair]
        refine ih (m + 1) _ bi bs (by omega) (fun k => hAnew k)
          (by omega) ?_
        intro i' hi'
        rcases Nat.lt_succ_iff_lt_or_eq.mp hi' with h | h
        · exact hD i' h
        · subst h
          omega

/-- On `(s, s)` the left extension drags a diagonal block to the origin. -/
theorem extendLeft_self (s : List Char) :
    ∀ d bs, extendLeft s s 0 0 d d bs = (0, 0, bs + d) := by
  intro d
  induction d with
  | zero => intro bs; rfl
  | succ d ih =>
    intro bs
    rw [show extendLeft s s 0 0 (d + 1) (d + 1) bs =
        (if 0 < d + 1 ∧ 0 < d + 1 ∧
            isbjunk (charAt s (d + 1 - 1)) = false ∧
            charAt s (d + 1 - 1) = charAt s (d + 1 - 1) then
          extendLeft s s 0 0 d (d + 1 - 1) (bs + 1)
        else (d + 1, d + 1, bs)) from rfl]
    rw [if_pos ⟨by omega, by omega, rfl, rfl⟩]
    have hsub : d + 1 - 1 = d := rfl
    rw [hsub, ih (bs + 1)]
    have : bs + 1 + d = bs + (d + 1) := by omega
    rw [this]

/-- On `(s, s)` the right extension grows a block at the origin to the
whole string, given enough fuel. -/
theorem extendRight_self (s : List Char) :
    ∀ fuel bs, bs ≤ s.length → s.length - bs ≤ fuel →
      extendRight s s s.length s.length fuel 0 0 bs = (0, 0, s.length) := by
  intro fuel
  induction fuel with
  | zero =>
    intro bs h1 h2
    have : bs = s.length := by omega
    rw [this]
    rfl
  | succ f ih =>
    intro bs h1 h2
    by_cases hbs : bs < s.length
    · rw [show extendRight s s s.length s.length (f + 1) 0 0 bs =
          (if 0 + bs < s.length ∧ 0 + bs < s.length ∧
              isbjunk (charAt s (0 + bs)) = false ∧
              charAt s (0 + bs) = charAt s (0 + bs) then
            extendRight s s s.length s.length f 0 0 (bs + 1)
          else (0, 0, bs)) from rfl]
      rw [if_pos ⟨by omega, by omega, rfl, rfl⟩]
      exact ih (bs + 1) (by omega) (by omega)
    · have : bs = s.length := by omega
      subst this
      rw [show extendRight s s s.length s.length (f + 1) 0 0 s.length =
          (if 0 + s.length < s.length ∧ 0 + s.length < s.length ∧
              isbjunk (charAt s (0 + s.length)) = false ∧
              charAt s (0 + s.length) = charAt s (0 + s.length) then
            extendRight s s s.length s.length f 0 0 (s.length + 1)
          else (0, 0, s.length)) from rfl]
      rw [if_neg (by omega)]

/-- On `(s, s)`, `find_longest_match` over the whole window returns the
full diagonal block. -/
theorem findLongestMatch_self (s : List Char) :
    findLongestMatch s s 0 s.length 0 s.length = (0, 0, s.length) := by
  obtain ⟨d, bs, hscan, hdbs⟩ := flmScan_self s
  have h2 : extendRight s s s.length s.length s.length 0 0 (bs + d) =
      (0, 0, s.length) := extendRight_self s s.length (bs + d) (by omega)
    (by omega)
  unfold findLongestMatch
  simp only [hscan, extendLeft_self, h2, junkExtendLeft_id,
    junkExtendRight_id]

/-- On `(s, s)` with `s` nonempty, the recursive block decomposition is the
single full diagonal block. -/
theorem matchBlocks_self (s : List Char) (hn : 0 < s.length) :
    matchBlocks s s 0 s.length 0 s.length = [(0, 0, s.length)] := by
  unfold matchBlocks
  rw [Nat.sub_zero]
  rw [show matchBlocksF s s (s.length + 1) 0 s.length 0 s.length =
      (let x := findLongestMatch s s 0 s.length 0 s.length
       if x.2.2 = 0 then []
       else
         (if 0 < x.1 ∧ 0 < x.2.1 then
            matchBlocksF s s s.length 0 x.1 0 x.2.1
          else []) ++
         (x.1, x.2.1, x.2.2) ::
         (if x.1 + x.2.2 < s.length ∧ x.2.1 + x.2.2 < s.length then
            matchBlocksF s s s.length (x.1 + x.2.2) s.length
              (x.2.1 + x.2.2) s.length
          else [])) from rfl]
  simp only [findLongestMatch_self s]
  rw [if_neg (by omega), if_neg (by omega), if_neg (by omega)]
  simp

/-- On `(s, s)` with `s` nonempty, `get_matching_blocks` is the full
diagonal block followed by the sentinel. -/
theorem getMatchingBlocks_self (s : List Char) (hn : 0 < s.length) :
    getMatchingBlocks s s =
      [(0, 0, s.length), (s.length, s.length, 0)] := by
  unfold getMatchingBlocks
  rw [matchBlocks_self s hn]
  rw [show nonAdjacent [((0 : ℕ), (0 : ℕ), s.length)] (0, 0, 0) =
      (if (0 : ℕ) + 0 = 0 ∧ (0 : ℕ) + 0 = 0 then
        nonAdjacent [] ((0 : ℕ), (0 : ℕ), 0 + s.length)
      else
        (if (0 : ℕ) ≠ 0 then [((0 : ℕ), (0 : ℕ), (0 : ℕ))] else []) ++
          nonAdjacent [] (0, 0, s.length)) from rfl]
  rw [if_pos ⟨rfl, rfl⟩]
  rw [show nonAdjacent ([] : List (ℕ × ℕ × ℕ)) ((0 : ℕ), (0 : ℕ), 0 + s.length) =
      (if 0 + s.length ≠ 0 then [((0 : ℕ), (0 : ℕ), 0 + s.length)] else [])
    from rfl]
  rw [if_pos (by omega)]
  simp

/-- `ratio` on `(s, s)` is `1` for every character list `s`. -/
theorem seqRatio_self (s : List Char) : seqRatio s s = 1 := by
  rcases Nat.eq_zero_or_pos s.length with hn | hn
  · unfold seqRatio
    rw [if_pos (by omega)]
  · unfold seqRatio
    rw [getMatchingBlocks_self s hn]
    simp only [List.map_cons, List.map_nil, List.sum_cons, List.sum_nil]
    rw [if_neg (by omega)]
    have h0 : (0 : ℚ) < (s.length : ℚ) := by exact_mod_cast hn
    rw [div_eq_one_iff_eq (by linarith)]
    push_cast
    ring

/-- C4: `calculate_similarity(x, x) = 1.0` for every text `x` — the
similarity ratio is reflexive after trimming. -/
theorem C4_similarity_reflexive (x : String) :
    calculate_similarity x x = 1 := by
  unfold calculate_similarity
  exact seqRatio_self _

/-- Evaluation helper for `seqRatio`: once the matched total `M` and the two
lengths are computed (by `decide`), the ratio is the explicit fraction. -/
theorem seqRatio_eval (a b : List Char) (M la lb : ℕ)
    (hM : ((getMatchingBlocks a b).map (fun t => t.2.2)).sum = M)
    (hla : a.length = la) (hlb : b.length = lb) (h : 0 < la + lb) :
    seqRatio a b = (2 * (M : ℚ)) / ((la : ℚ) + (lb : ℚ)) := by
  simp only [seqRatio]
  rw [hM, hla, hlb]
  rw [if_neg (by omega)]

/-- C3 fails as stated: the ratio is not symmetric.  `b2j` is built from the
second sequence only and autojunk/occurrence lookups are not symmetric, so
swapping the arguments can change the matched total. -/
theorem C3_counterexample :
    calculate_similarity "qxyuv" "uvqzxy" = 6 / 11 ∧
    calculate_similarity "uvqzxy" "qxyuv" = 4 / 11 ∧
    calculate_similarity "qxyuv" "uvqzxy" ≠
      calculate_similarity "uvqzxy" "qxyuv" := by
  have e1 : calculate_similarity "qxyuv" "uvqzxy" = 6 / 11 := by
    unfold calculate_similarity
    rw [seqRatio_eval ((pyStrip "qxyuv").data) ((pyStrip "uvqzxy").data) 3 5 6
      (by decide) (by decide) (by decide) (by omega)]
    norm_num
  have e2 : calculate_similarity "uvqzxy" "qxyuv" = 4 / 11 := by
    unfold calculate_similarity
    rw [seqRatio_eval ((pyStrip "uvqzxy").data) ((pyStrip "qxyuv").data) 2 6 5
      (by decide) (by decide) (by decide) (by omega)]
    norm_num
  refine ⟨e1, e2, ?_⟩
  rw [e1, e2]
  norm_num

/-- C3 amended: the similarity is symmetric whenever the two inputs agree
after trimming (in particular on equal inputs); full symmetry fails
(`C3_counterexample`). -/
theorem C3_similarity_symmetric_of_strip_eq (a b : String)
    (h : pyStrip a = pyStrip b) :
    calculate_similarity a b = calculate_similarity b a := by
  unfold calculate_similarity
  rw [h]

/-- Witness for the amended C3 symmetry theorem at a concrete pair that
differs only by surrounding whitespace. -/
theorem C3_similarity_symmetric_of_strip_eq_witness :
    pyStrip "a" = pyStrip " a " ∧
    calculate_similarity "a" " a " = calculate_similarity " a " "a" :=
  ⟨by decide, C3_similarity_symmetric_of_strip_eq "a" " a " (by decide)⟩

/-- Length of the reference document, computed by distributing over the
line-by-line concatenation (keeps kernel evaluation shallow). -/
theorem expectedHtml_length : EXPECTED_HTML.data.length = 2247 := by
  simp only [EXPECTED_HTML, String.data_append, List.length_append]
  decide

/-- Full evaluation of the structure analyzer on the reference document. -/
theorem analyze_expected_eval :
    analyze_code_structure EXPECTED_HTML =
      some ⟨true, true, true, true, 4, true, true, 9⟩ := by
  unfold analyze_code_structure
  rw [show scanTags EXPECTED_HTML.data =
      scanTagsF 2247 EXPECTED_HTML.data from
    by rw [scanTags, expectedHtml_length]]
  decide

/-- C1 fails as stated: on the reference document the analyzer reports
`row_count = 4` (not 5) and `col_elements = 9` (not 11).  The analyzer
counts `div` start tags whose `class` attribute contains the substring
`"row"` resp. `"col-"`; the four `row`-divs and nine `col-`-divs of the
reference are what it finds. -/
theorem C1_counterexample :
    analyze_code_structure EXPECTED_HTML =
      some ⟨true, true, true, true, 4, true, true, 9⟩ ∧
    (4 : ℕ) ≠ 5 ∧ (9 : ℕ) ≠ 11 :=
  ⟨analyze_expected_eval, by decide, by decide⟩

/-- C1 amended: feeding the reference document back in yields similarity
`1`, structure facts with every boolean true, `row_count = 4 ≥ 2`,
`col_elements = 9 ≥ 6`, and a derived structure score of `8`. -/
theorem C1_reference_roundtrip :
    calculate_similarity EXPECTED_HTML EXPECTED_HTML = 1 ∧
    analyze_code_structure EXPECTED_HTML =
      some ⟨true, true, true, true, 4, true, true, 9⟩ ∧
    (2 : ℕ) ≤ 4 ∧ (6 : ℕ) ≤ 9 ∧
    structure_score ⟨true, true, true, true, 4, true, true, 9⟩ = 8 := by
  refine ⟨?_, analyze_expected_eval, by decide, by decide, by decide⟩
  unfold calculate_similarity
  exact seqRatio_self _
